import Mathlib

/-!
Verification of the gitscaffold roadmap parser and reconciliation engine.

The definitions below are shallow embeddings of the Python source:
  - `scaffold/parser.py`   : `parse_markdown`, `parse_roadmap`, `write_roadmap`
  - `scaffold/cli.py`      : the `sync` command's classification and apply
    phases, the `diff` command's set comparison and creation loop, and
    `_populate_repo_from_roadmap`.
Strings are modelled as Lean `String`s; the parser works on `List Char`
and `List String` (lines) mirroring the line-oriented regex splits of the
source.  The issue tracker (`scaffold/github.py`, not present in the
source tree) is modelled from the spec's IssueTrackerClient interface as
a snapshot of issues plus a sequential issue-number counter.
-/

namespace Gitscaffold

/-! ## Python string primitives -/

/-- Python whitespace characters for `str.strip()`:
space, tab, newline, carriage return, vertical tab, form feed. -/
def isPySpace (c : Char) : Bool :=
  c.toNat == 32 || c.toNat == 9 || c.toNat == 10 || c.toNat == 13 ||
  c.toNat == 11 || c.toNat == 12

/-- Character-list version of Python `str.strip()`. -/
def stripChars (l : List Char) : List Char :=
  ((l.dropWhile isPySpace).reverse.dropWhile isPySpace).reverse

/-- Python `str.strip()` on a `String`. -/
def pyStrip (s : String) : String := ⟨stripChars s.data⟩

/-- Python `str.lstrip()` restricted to a given character (used for
`lstrip('#')`). -/
def dropLeading (c : Char) (l : List Char) : List Char :=
  l.dropWhile (· == c)

/-- Python `str.strip(chars)` for a single strip character, e.g.
`strip('**')` which strips `*` from both ends. -/
def stripChar (c : Char) (l : List Char) : List Char :=
  ((l.dropWhile (· == c)).reverse.dropWhile (· == c)).reverse

/-- Python `str.lower()` (ASCII letters only, as used by the parser's
keyword comparisons). -/
def lowerChars (l : List Char) : List Char := l.map Char.toLower

/-- Python `'\n'.join(lines)` on character lists. -/
def joinLinesChars : List (List Char) → List Char
  | [] => []
  | [l] => l
  | l :: ls => l ++ '\n' :: joinLinesChars ls

/-- Python `s.split('\n')` on character lists. -/
def splitLinesChars (l : List Char) : List (List Char) :=
  l.splitOn '\n'

/-- Python `s.split(sep, 1)`: split at the first occurrence of a
character, returning the remainder as a whole (or `none` when the
separator does not occur). -/
def splitFirst (sep : Char) : List Char → List Char × Option (List Char)
  | [] => ([], none)
  | c :: rest =>
    if c == sep then ([], some rest)
    else
      let (pre, post) := splitFirst sep rest
      (c :: pre, post)

/-- Python `sub in s` for a substring test, via `List.IsInfix`. -/
def containsSub (sub s : String) : Prop := sub.data <:+: s.data

instance (sub s : String) : Decidable (containsSub sub s) :=
  inferInstanceAs (Decidable (sub.data <:+: s.data))

/-! ## Data model (spec section 3; `scaffold/validator.py` models) -/

structure Task where
  title : String
  description : String
  labels : List String
  assignees : List String
  tests : List String
  completed : Bool
deriving Repr, DecidableEq

structure Feature where
  title : String
  description : String
  milestone : Option String
  labels : List String
  assignees : List String
  tasks : List Task
deriving Repr, DecidableEq

structure Milestone where
  name : String
  due_date : Option String
deriving Repr, DecidableEq

structure Roadmap where
  name : String
  description : String
  milestones : List Milestone
  features : List Feature
deriving Repr, DecidableEq

/-! ## Remote issue tracker model

`scaffold/github.py` is not present under `src/`; the client surface used
by `sync` and `diff` (`get_all_issue_titles`, `_find_issue`,
`_find_milestone`, `create_issue`, `update_issue`, `close_issue`) is
modelled from the spec's IssueTrackerClient interface: a snapshot of
issues, searched by exact title, plus created issues numbered by a
counter. -/

inductive IssueState where
  | isOpen
  | isClosed
deriving Repr, DecidableEq

structure Issue where
  number : Nat
  title : String
  body : String
  state : IssueState
deriving Repr, DecidableEq

/-- Modelled from the spec: `list_issue_titles() -> set<string>`; the
snapshot's title set, represented as the list of issue titles. -/
def issueTitles (remote : List Issue) : List String :=
  remote.map (·.title)

/-- Modelled from the spec: `find_issue(title) -> Issue|null`; first
issue in the snapshot whose title matches exactly. -/
def find_issue (remote : List Issue) (title : String) : Option Issue :=
  remote.find? (fun i => i.title == title)

/-! ## Schema validation

Modelled from the spec: `scaffold/validator.py` (the `validate_roadmap`
function and the pydantic models) is not under `src/`.  Per spec section
3, a title "is trimmed of leading Markdown heading markers (`#`) and
whitespace before use as an identifier" and duplicate milestone names
"collapse to first occurrence"; missing lists are already coerced to
empty lists by the typed model. -/

/-- Modelled from the spec: title normalization applied by the validator
(trim leading `#` markers, then surrounding whitespace). -/
def stripTitle (s : String) : String :=
  ⟨stripChars (dropLeading '#' s.data)⟩

/-- Keep only the first milestone for each name (`seen` collects the
names already emitted). -/
def dedupMilestonesAux (seen : List String) : List Milestone → List Milestone
  | [] => []
  | m :: ms =>
    if seen.contains m.name then dedupMilestonesAux seen ms
    else m :: dedupMilestonesAux (m.name :: seen) ms

def dedupMilestones (ms : List Milestone) : List Milestone :=
  dedupMilestonesAux [] ms

/-- Modelled from the spec: `validate_roadmap` from
`scaffold/validator.py` (absent from `src/`): normalizes titles and
collapses duplicate milestones into the canonical `Roadmap`. -/
def validate_roadmap (r : Roadmap) : Roadmap :=
  { name := r.name
    description := r.description
    milestones := dedupMilestones r.milestones
    features := r.features.map (fun f =>
      { f with
        title := stripTitle f.title
        tasks := f.tasks.map (fun t => { t with title := stripTitle t.title }) }) }

/-! ## Sync classification (`scaffold/cli.py` lines 1244-1289)

The `sync` command, on a non-empty repository, classifies roadmap items
against the snapshot of existing issue titles:
  - milestones not found by name lookup are collected for creation;
  - features whose title is absent from the title set are collected for
    creation;
  - tasks whose title is absent are grouped by owning feature title
    (a `defaultdict(list)`);
  - present tasks are looked up; a completed task whose issue is not
    closed is collected for closing, otherwise a non-empty stripped
    description differing from the stripped issue body is collected as a
    body update. -/

structure SyncActions where
  milestones_to_create : List Milestone
  features_to_create : List Feature
  tasks_to_create : List (String × List Task)
  tasks_to_update : List (Issue × String)
  tasks_to_close : List Issue
deriving Repr, DecidableEq

/-- Append a task under a feature-title key, preserving insertion order
of keys (Python `defaultdict(list)` behaviour). -/
def addTaskTo (groups : List (String × List Task)) (key : String) (t : Task) :
    List (String × List Task) :=
  match groups with
  | [] => [(key, [t])]
  | (k, ts) :: rest =>
    if k == key then (k, ts ++ [t]) :: rest
    else (k, ts) :: addTaskTo rest key t

/-- Classification of one present task (`cli.py` lines 1266-1281): a
completed task whose issue is not closed yields only a close; otherwise
a non-empty stripped description differing from the stripped issue body
yields a body update. -/
def classifyPresentTask (remote : List Issue) (t : Task)
    (acc : SyncActions) : SyncActions :=
  match find_issue remote t.title with
  | none => acc
  | some issue =>
    if t.completed && decide (issue.state ≠ IssueState.isClosed) then
      { acc with tasks_to_close := acc.tasks_to_close ++ [issue] }
    else if pyStrip t.description ≠ "" ∧ pyStrip t.description ≠ pyStrip issue.body then
      { acc with tasks_to_update := acc.tasks_to_update ++ [(issue, t.description)] }
    else acc

/-- Task loop of the classification pass (`cli.py` lines 1263-1284). -/
def classifyTasks (remote : List Issue) (featTitle : String)
    (tasks : List Task) (acc : SyncActions) : SyncActions :=
  match tasks with
  | [] => acc
  | t :: rest =>
    let acc :=
      if (issueTitles remote).contains t.title then
        classifyPresentTask remote t acc
      else
        { acc with tasks_to_create := addTaskTo acc.tasks_to_create featTitle t }
    classifyTasks remote featTitle rest acc

/-- Feature loop of the classification pass (`cli.py` lines 1256-1284). -/
def classifyFeatures (remote : List Issue) (feats : List Feature)
    (acc : SyncActions) : SyncActions :=
  match feats with
  | [] => acc
  | f :: rest =>
    let acc :=
      if (issueTitles remote).contains f.title then acc
      else { acc with features_to_create := acc.features_to_create ++ [f] }
    let acc := classifyTasks remote f.title f.tasks acc
    classifyFeatures remote rest acc

/-- Milestone loop (`cli.py` lines 1244-1249); the milestone lookup
(`_find_milestone`) is modelled from the spec as an exact-name search in
the remote milestone-name list. -/
def classifyMilestones (remoteMilestones : List String) (ms : List Milestone)
    (acc : SyncActions) : SyncActions :=
  match ms with
  | [] => acc
  | m :: rest =>
    let acc :=
      if remoteMilestones.contains m.name then acc
      else { acc with milestones_to_create := acc.milestones_to_create ++ [m] }
    classifyMilestones remoteMilestones rest acc

def emptyActions : SyncActions := ⟨[], [], [], [], []⟩

/-- Full classification pass of `sync` against a snapshot
(`cli.py` lines 1244-1289). -/
def syncClassify (roadmap : Roadmap) (remote : List Issue)
    (remoteMilestones : List String) : SyncActions :=
  let acc := classifyMilestones remoteMilestones roadmap.milestones emptyActions
  classifyFeatures remote roadmap.features acc

/-! ## Sync apply phase (`scaffold/cli.py` lines 1342-1414)

Creation is modelled against a remote state (snapshot issues plus a
sequential number counter, per the spec's `create_issue(...) ->
Issue{number}`).  A creation failure is modelled by a predicate on the
created title; in `sync` a `GithubException` either exits the process
(HTTP 403) or propagates, so either way the run aborts. -/

structure RemoteState where
  issues : List Issue
  nextNum : Nat
deriving Repr, DecidableEq

/-- Modelled from the spec: `create_issue` returns the new issue with
the next sequential number; the issue is appended to the tracker
state. -/
def create_issue (st : RemoteState) (title body : String) : Issue × RemoteState :=
  let i : Issue := ⟨st.nextNum, title, body, IssueState.isOpen⟩
  (i, ⟨st.issues ++ [i], st.nextNum + 1⟩)

inductive SyncEvent where
  | createdMilestone (name : String)
  | createdFeature (title : String) (number : Nat)
  | createdTask (featKey : String) (title : String) (body : String) (number : Nat)
  | updatedIssue (number : Nat) (body : String)
  | closedIssue (number : Nat)
  | abortedRun
deriving Repr, DecidableEq

/-- Result of the feature-creation phase: its events, the tracker
state, the `feature_object_map`, and whether the run aborted. -/
structure FeaturePhaseOut where
  events : List SyncEvent
  st : RemoteState
  fmap : List (String × Issue)
  aborted : Bool
deriving Repr, DecidableEq

/-- Result of a task-creation phase. -/
structure TaskPhaseOut where
  events : List SyncEvent
  st : RemoteState
  aborted : Bool
deriving Repr, DecidableEq

/-- Feature-creation loop (`cli.py` lines 1347-1369): each created
feature is recorded in `feature_object_map` keyed by the unstripped
roadmap title; a failure aborts the run (403 exits, anything else
re-raises). -/
def syncApplyFeatures (fails : String → Bool) :
    List Feature → RemoteState → List (String × Issue) → FeaturePhaseOut
  | [], st, fmap => ⟨[], st, fmap, false⟩
  | f :: rest, st, fmap =>
    if fails (pyStrip f.title) then ⟨[SyncEvent.abortedRun], st, fmap, true⟩
    else
      let ci := create_issue st (pyStrip f.title) f.description
      let r := syncApplyFeatures fails rest ci.2 ((f.title, ci.1) :: fmap)
      ⟨SyncEvent.createdFeature (pyStrip f.title) ci.1.number :: r.events,
        r.st, r.fmap, r.aborted⟩

/-- Task-creation loop for one feature group (`cli.py` lines 1384-1402):
the body is the task description with the parent-link line appended,
then stripped. -/
def syncApplyTaskGroup (fails : String → Bool) (parentNum : Nat) (featKey : String) :
    List Task → RemoteState → TaskPhaseOut
  | [], st => ⟨[], st, false⟩
  | t :: rest, st =>
    let content := pyStrip (t.description ++ "\n\nParent issue: #" ++ Nat.repr parentNum)
    if fails (pyStrip t.title) then ⟨[SyncEvent.abortedRun], st, true⟩
    else
      let ci := create_issue st (pyStrip t.title) content
      let r := syncApplyTaskGroup fails parentNum featKey rest ci.2
      ⟨SyncEvent.createdTask featKey (pyStrip t.title) content ci.1.number :: r.events,
        r.st, r.aborted⟩

/-- Parent resolution for a task group (`cli.py` lines 1372-1379):
first the map of features created in this run, then a live lookup by
title; when neither finds a parent the group is skipped with a
warning. -/
def resolveParent (fmap : List (String × Issue)) (st : RemoteState)
    (featKey : String) : Option Issue :=
  match fmap.lookup featKey with
  | some i => some i
  | none => find_issue st.issues featKey

def syncApplyTaskGroups (fails : String → Bool) (fmap : List (String × Issue)) :
    List (String × List Task) → RemoteState → TaskPhaseOut
  | [], st => ⟨[], st, false⟩
  | g :: rest, st =>
    match resolveParent fmap st g.1 with
    | none => syncApplyTaskGroups fails fmap rest st
    | some p =>
      let r := syncApplyTaskGroup fails p.number g.1 g.2 st
      if r.aborted then r
      else
        let r2 := syncApplyTaskGroups fails fmap rest r.st
        ⟨r.events ++ r2.events, r2.st, r2.aborted⟩

/-- The apply step of `sync` (`cli.py` lines 1342-1414): milestones,
feature creates, task creates, body updates, closes — in that order. -/
def syncApply (fails : String → Bool) (actions : SyncActions)
    (snapshot : RemoteState) : List SyncEvent × RemoteState :=
  let msEvs := actions.milestones_to_create.map (fun m => SyncEvent.createdMilestone m.name)
  let fr := syncApplyFeatures fails actions.features_to_create snapshot []
  if fr.aborted then (msEvs ++ fr.events, fr.st)
  else
    let tr := syncApplyTaskGroups fails fr.fmap actions.tasks_to_create fr.st
    if tr.aborted then (msEvs ++ fr.events ++ tr.events, tr.st)
    else
      let uEvs := actions.tasks_to_update.map (fun p => SyncEvent.updatedIssue p.1.number p.2)
      let cEvs := actions.tasks_to_close.map (fun i => SyncEvent.closedIssue i.number)
      (msEvs ++ fr.events ++ tr.events ++ uEvs ++ cEvs, tr.st)

/-! ## Diff command (`scaffold/cli.py` lines 1444-1619) -/

/-- Roadmap title set of the `diff` command: all feature titles and all
task titles (`cli.py` lines 1501-1504). -/
def roadmapTitles (r : Roadmap) : List String :=
  r.features.map (·.title) ++ r.features.flatMap (fun f => f.tasks.map (·.title))

/-- `missing = roadmap_titles - gh_titles` (`cli.py` line 1544),
modelled as a list with set-membership semantics. -/
def missingTitles (r : Roadmap) (ghTitles : List String) : List String :=
  (roadmapTitles r).filter (fun t => ¬ ghTitles.contains t)

/-- `extra = gh_titles - roadmap_titles` (`cli.py` line 1545). -/
def extraTitles (ghTitles : List String) (r : Roadmap) : List String :=
  ghTitles.filter (fun t => ¬ (roadmapTitles r).contains t)

inductive DiffEvent where
  | created (title : String) (body : String)
  | createFailed (title : String)
  | skippedTask (title : String)
deriving Repr, DecidableEq

/-- Titles for which a create was attempted (successful or failed);
skipped tasks were never attempted. -/
def attemptedTitles (evs : List DiffEvent) : List String :=
  evs.filterMap (fun e =>
    match e with
    | DiffEvent.created t _ => some t
    | DiffEvent.createFailed t => some t
    | DiffEvent.skippedTask _ => none)

/-- Result of the `diff` creation phase: events, tracker state, and the
running `created_count` / `failed_count` counters. -/
structure DiffOut where
  events : List DiffEvent
  st : RemoteState
  created_count : Nat
  failed_count : Nat
deriving Repr, DecidableEq

/-- `if not parent_issue_for_tasks: parent_issue_for_tasks =
gh_client._find_issue(feat.title)` (`cli.py` lines 1591-1593). -/
def resolveParentDiff (parent : Option Issue) (st : RemoteState)
    (featTitle : String) : Option Issue :=
  match parent with
  | some p => some p
  | none => find_issue st.issues featTitle

/-- Task part of the `diff` creation loop (`cli.py` lines 1587-1614):
the parent issue is looked up lazily on the first missing task and
cached; a missing parent skips the task, a failed create increments the
failure counter and the loop continues with the remaining tasks. -/
def diffCreateTaskLoop (fails : String → Bool) (missing : List String)
    (featTitle : String) : List Task → Option Issue → RemoteState → DiffOut
  | [], _, st => ⟨[], st, 0, 0⟩
  | t :: rest, parent, st =>
    if missing.contains t.title then
      match resolveParentDiff parent st featTitle with
      | none =>
        let r := diffCreateTaskLoop fails missing featTitle rest none st
        ⟨DiffEvent.skippedTask t.title :: r.events, r.st, r.created_count, r.failed_count⟩
      | some p =>
        let content := pyStrip (t.description ++ "\n\nParent issue: #" ++ Nat.repr p.number)
        if fails (pyStrip t.title) then
          let r := diffCreateTaskLoop fails missing featTitle rest (some p) st
          ⟨DiffEvent.createFailed (pyStrip t.title) :: r.events, r.st,
            r.created_count, r.failed_count + 1⟩
        else
          let ci := create_issue st (pyStrip t.title) content
          let r := diffCreateTaskLoop fails missing featTitle rest (some p) ci.2
          ⟨DiffEvent.created (pyStrip t.title) content :: r.events, r.st,
            r.created_count + 1, r.failed_count⟩
    else
      diffCreateTaskLoop fails missing featTitle rest parent st

/-- Feature part of one iteration of the creation loop (`cli.py` lines
1570-1585). -/
def diffCreateFeatureStep (fails : String → Bool) (missing : List String)
    (f : Feature) (st : RemoteState) : DiffOut :=
  if missing.contains f.title then
    if fails (pyStrip f.title) then
      ⟨[DiffEvent.createFailed (pyStrip f.title)], st, 0, 1⟩
    else
      let ci := create_issue st (pyStrip f.title) f.description
      ⟨[DiffEvent.created (pyStrip f.title) f.description], ci.2, 1, 0⟩
  else ⟨[], st, 0, 0⟩

/-- The creation loop of `diff` (`cli.py` lines 1569-1614): for each
feature, create it if missing, then create its missing tasks. -/
def diffCreateLoop (fails : String → Bool) (missing : List String) :
    List Feature → RemoteState → DiffOut
  | [], st => ⟨[], st, 0, 0⟩
  | f :: rest, st =>
    let rf := diffCreateFeatureStep fails missing f st
    let rt := diffCreateTaskLoop fails missing f.title f.tasks none rf.st
    let rr := diffCreateLoop fails missing rest rt.st
    ⟨rf.events ++ rt.events ++ rr.events, rr.st,
      rf.created_count + rt.created_count + rr.created_count,
      rf.failed_count + rt.failed_count + rr.failed_count⟩

/-- The whole creation phase of `diff` run against a snapshot: `missing`
is computed from the validated roadmap and the snapshot titles, then the
creation loop runs on the snapshot state. -/
def diffCreatePhase (fails : String → Bool) (r : Roadmap) (snapshot : List Issue)
    (n0 : Nat) : DiffOut :=
  diffCreateLoop fails (missingTitles r (issueTitles snapshot)) r.features
    ⟨snapshot, n0⟩

/-! ## Structured parsing dispatch (`scaffold/parser.py` lines 188-222)

The YAML/JSON decoders are external libraries; their results are
parameters (`Except` values whose error is the library's message). -/

inductive PyVal where
  | dict (entries : List (String × PyVal))
  | list (elems : List PyVal)
  | str (s : String)
  | num (n : Int)
  | noneVal

/-- Python `type(data).__name__` for the values we model. -/
def pyTypeName : PyVal → String
  | PyVal.dict _ => "dict"
  | PyVal.list _ => "list"
  | PyVal.str _ => "str"
  | PyVal.num _ => "int"
  | PyVal.noneVal => "NoneType"

inductive ParseOutcome where
  /-- A structured value was returned to the caller. -/
  | structured (v : PyVal)
  /-- Fell back to the heading-based Markdown parser. -/
  | markdown
  /-- An exception was raised with this message. -/
  | failed (msg : String)

/-- `parse_roadmap` dispatch (`parser.py` lines 188-222): Markdown files
try YAML front matter (dict is returned, list raises, anything else
falls back to the Markdown parser); `.json` files return `json.loads`
unchecked; everything else must YAML-decode to a mapping. -/
def parse_roadmap_dispatch (suffix : String)
    (yamlLoad : Except String PyVal) (jsonLoad : Except String PyVal) :
    ParseOutcome :=
  let sfx : String := ⟨lowerChars suffix.data⟩
  if sfx = ".md" ∨ sfx = ".markdown" then
    match yamlLoad with
    | Except.ok (PyVal.dict m) => ParseOutcome.structured (PyVal.dict m)
    | Except.ok (PyVal.list _) =>
      ParseOutcome.failed "Roadmap file must contain a mapping at the top level, got list"
    | _ => ParseOutcome.markdown
  else if sfx = ".json" then
    match jsonLoad with
    | Except.ok v => ParseOutcome.structured v
    | Except.error e => ParseOutcome.failed e
  else
    match yamlLoad with
    | Except.error e =>
      ParseOutcome.failed
        ("Roadmap file must contain a mapping at the top level, got YAML error: " ++ e)
    | Except.ok (PyVal.dict m) => ParseOutcome.structured (PyVal.dict m)
    | Except.ok v =>
      ParseOutcome.failed
        ("Roadmap file must contain a mapping at the top level, got " ++ pyTypeName v)

/-- Coarse trace of the `sync` command (`cli.py` lines 1090-1103): the
roadmap is parsed first; a parse failure prints an error and exits
before the GitHub client is constructed and before any issue titles are
fetched. -/
inductive PipeEvent where
  | errorExit (msg : String)
  | remoteConnect
  | remoteFetchTitles
deriving Repr, DecidableEq

def syncPipelinePrefix (parsed : ParseOutcome) : List PipeEvent :=
  match parsed with
  | ParseOutcome.failed msg => [PipeEvent.errorExit msg]
  | _ => [PipeEvent.remoteConnect, PipeEvent.remoteFetchTitles]

/-! ## Helper lemmas about the classification pass -/

/-- All task titles of a roadmap (the scope in which body updates and
closes originate). -/
def taskTitles (r : Roadmap) : List String :=
  r.features.flatMap (fun f => f.tasks.map (·.title))

lemma classifyPresentTask_features (remote : List Issue) (t : Task) (acc : SyncActions) :
    (classifyPresentTask remote t acc).features_to_create = acc.features_to_create := by
  unfold classifyPresentTask
  split
  · rfl
  · split
    · rfl
    · split <;> rfl

lemma classifyPresentTask_creates (remote : List Issue) (t : Task) (acc : SyncActions) :
    (classifyPresentTask remote t acc).tasks_to_create = acc.tasks_to_create := by
  unfold classifyPresentTask
  split
  · rfl
  · split
    · rfl
    · split <;> rfl

lemma classifyPresentTask_update_mem (remote : List Issue) (t : Task) (acc : SyncActions)
    (p : Issue × String) (hp : p ∈ (classifyPresentTask remote t acc).tasks_to_update) :
    p ∈ acc.tasks_to_update ∨
      (find_issue remote t.title = some p.1 ∧ p.2 = t.description) := by
  unfold classifyPresentTask at hp
  cases hf : find_issue remote t.title with
  | none => rw [hf] at hp; exact Or.inl hp
  | some issue =>
    rw [hf] at hp
    dsimp only at hp
    split at hp
    · exact Or.inl hp
    · split at hp
      · rcases List.mem_append.1 hp with h | h
        · exact Or.inl h
        · rcases List.mem_singleton.1 h with rfl
          exact Or.inr ⟨rfl, rfl⟩
      · exact Or.inl hp

lemma classifyPresentTask_close_mem (remote : List Issue) (t : Task) (acc : SyncActions)
    (i : Issue) (hi : i ∈ (classifyPresentTask remote t acc).tasks_to_close) :
    i ∈ acc.tasks_to_close ∨ find_issue remote t.title = some i := by
  unfold classifyPresentTask at hi
  cases hf : find_issue remote t.title with
  | none => rw [hf] at hi; exact Or.inl hi
  | some issue =>
    rw [hf] at hi
    dsimp only at hi
    split at hi
    · rcases List.mem_append.1 hi with h | h
      · exact Or.inl h
      · rcases List.mem_singleton.1 h with rfl
        exact Or.inr rfl
    · split at hi
      · exact Or.inl hi
      · exact Or.inl hi

lemma classifyTasks_features (remote : List Issue) (ft : String) (ts : List Task)
    (acc : SyncActions) :
    (classifyTasks remote ft ts acc).features_to_create = acc.features_to_create := by
  induction ts generalizing acc with
  | nil => rfl
  | cons t rest ih =>
    unfold classifyTasks
    dsimp only
    split
    · rw [ih, classifyPresentTask_features]
    · rw [ih]

lemma classifyTasks_update_mem (remote : List Issue) (ft : String) (ts : List Task)
    (acc : SyncActions) (p : Issue × String)
    (hp : p ∈ (classifyTasks remote ft ts acc).tasks_to_update) :
    p ∈ acc.tasks_to_update ∨
      ∃ t ∈ ts, find_issue remote t.title = some p.1 ∧ p.2 = t.description := by
  induction ts generalizing acc with
  | nil => exact Or.inl hp
  | cons t rest ih =>
    unfold classifyTasks at hp
    dsimp only at hp
    split at hp
    · rcases ih _ hp with h | ⟨t', ht', h⟩
      · rcases classifyPresentTask_update_mem remote t acc p h with h2 | h2
        · exact Or.inl h2
        · exact Or.inr ⟨t, List.mem_cons_self t rest, h2⟩
      · exact Or.inr ⟨t', List.mem_cons_of_mem _ ht', h⟩
    · rcases ih _ hp with h | ⟨t', ht', h⟩
      · exact Or.inl h
      · exact Or.inr ⟨t', List.mem_cons_of_mem _ ht', h⟩

lemma classifyTasks_close_mem (remote : List Issue) (ft : String) (ts : List Task)
    (acc : SyncActions) (i : Issue)
    (hi : i ∈ (classifyTasks remote ft ts acc).tasks_to_close) :
    i ∈ acc.tasks_to_close ∨ ∃ t ∈ ts, find_issue remote t.title = some i := by
  induction ts generalizing acc with
  | nil => exact Or.inl hi
  | cons t rest ih =>
    unfold classifyTasks at hi
    dsimp only at hi
    split at hi
    · rcases ih _ hi with h | ⟨t', ht', h⟩
      · rcases classifyPresentTask_close_mem remote t acc i h with h2 | h2
        · exact Or.inl h2
        · exact Or.inr ⟨t, List.mem_cons_self t rest, h2⟩
      · exact Or.inr ⟨t', List.mem_cons_of_mem _ ht', h⟩
    · rcases ih _ hi with h | ⟨t', ht', h⟩
      · exact Or.inl h
      · exact Or.inr ⟨t', List.mem_cons_of_mem _ ht', h⟩

lemma classifyFeatures_update_mem (remote : List Issue) (fs : List Feature)
    (acc : SyncActions) (p : Issue × String)
    (hp : p ∈ (classifyFeatures remote fs acc).tasks_to_update) :
    p ∈ acc.tasks_to_update ∨
      ∃ f ∈ fs, ∃ t ∈ f.tasks, find_issue remote t.title = some p.1 ∧ p.2 = t.description := by
  induction fs generalizing acc with
  | nil => exact Or.inl hp
  | cons f rest ih =>
    unfold classifyFeatures at hp
    dsimp only at hp
    rcases ih _ hp with h | ⟨f', hf', t', ht', h⟩
    · have h2 := classifyTasks_update_mem remote f.title f.tasks _ p h
      rcases h2 with h2 | ⟨t, ht, h3⟩
      · split at h2 <;> exact Or.inl h2
      · exact Or.inr ⟨f, List.mem_cons_self f rest, t, ht, h3⟩
    · exact Or.inr ⟨f', List.mem_cons_of_mem _ hf', t', ht', h⟩

lemma classifyFeatures_close_mem (remote : List Issue) (fs : List Feature)
    (acc : SyncActions) (i : Issue)
    (hi : i ∈ (classifyFeatures remote fs acc).tasks_to_close) :
    i ∈ acc.tasks_to_close ∨
      ∃ f ∈ fs, ∃ t ∈ f.tasks, find_issue remote t.title = some i := by
  induction fs generalizing acc with
  | nil => exact Or.inl hi
  | cons f rest ih =>
    unfold classifyFeatures at hi
    dsimp only at hi
    rcases ih _ hi with h | ⟨f', hf', t', ht', h⟩
    · have h2 := classifyTasks_close_mem remote f.title f.tasks _ i h
      rcases h2 with h2 | ⟨t, ht, h3⟩
      · split at h2 <;> exact Or.inl h2
      · exact Or.inr ⟨f, List.mem_cons_self f rest, t, ht, h3⟩
    · exact Or.inr ⟨f', List.mem_cons_of_mem _ hf', t', ht', h⟩

lemma classifyFeatures_featcreate_mem (remote : List Issue) (fs : List Feature)
    (acc : SyncActions) (g : Feature)
    (hg : g ∈ (classifyFeatures remote fs acc).features_to_create) :
    g ∈ acc.features_to_create ∨
      ∃ f ∈ fs, g = f ∧ (issueTitles remote).contains f.title = false := by
  induction fs generalizing acc with
  | nil => exact Or.inl hg
  | cons f rest ih =>
    unfold classifyFeatures at hg
    dsimp only at hg
    rcases ih _ hg with h | ⟨f', hf', h⟩
    · rw [classifyTasks_features] at h
      by_cases hc : (issueTitles remote).contains f.title = true
      · rw [if_pos hc] at h
        exact Or.inl h
      · rw [if_neg hc] at h
        dsimp only at h
        rcases List.mem_append.1 h with h2 | h2
        · exact Or.inl h2
        · rcases List.mem_singleton.1 h2 with rfl
          exact Or.inr ⟨g, List.mem_cons_self g rest,
            rfl, Bool.not_eq_true _ ▸ (by simpa using hc)⟩
    · exact Or.inr ⟨f', List.mem_cons_of_mem _ hf', h⟩

lemma classifyMilestones_features (rms : List String) (ms : List Milestone)
    (acc : SyncActions) :
    (classifyMilestones rms ms acc).features_to_create = acc.features_to_create ∧
    (classifyMilestones rms ms acc).tasks_to_update = acc.tasks_to_update ∧
    (classifyMilestones rms ms acc).tasks_to_close = acc.tasks_to_close := by
  induction ms generalizing acc with
  | nil => exact ⟨rfl, rfl, rfl⟩
  | cons m rest ih =>
    unfold classifyMilestones
    dsimp only
    split
    · exact ih _
    · exact ih _

/-- The issue found by `find_issue` carries exactly the searched
title. -/
lemma find_issue_title (remote : List Issue) (s : String) (i : Issue)
    (h : find_issue remote s = some i) : i.title = s := by
  have := List.find?_some h
  simpa using this

lemma mem_taskTitles (r : Roadmap) (g : Feature) (t : Task)
    (hg : g ∈ r.features) (ht : t ∈ g.tasks) : t.title ∈ taskTitles r := by
  simp only [taskTitles, List.mem_flatMap]
  exact ⟨g, hg, List.mem_map.2 ⟨t, ht, rfl⟩⟩

/-- A present task producing neither a close nor a body update leaves
the action set unchanged. -/
lemma classifyPresentTask_noop (remote : List Issue) (t : Task) (acc : SyncActions)
    (h : ∀ issue, find_issue remote t.title = some issue →
      (t.completed = true → issue.state = IssueState.isClosed) ∧
      (pyStrip t.description = "" ∨ pyStrip t.description = pyStrip issue.body)) :
    classifyPresentTask remote t acc = acc := by
  unfold classifyPresentTask
  split
  · rfl
  · rename_i issue hf
    obtain ⟨h1, h2⟩ := h issue hf
    have hclose : (t.completed && decide (issue.state ≠ IssueState.isClosed)) = false := by
      cases hc : t.completed with
      | false => simp
      | true => simp [h1 hc]
    have hupd : ¬(pyStrip t.description ≠ "" ∧ pyStrip t.description ≠ pyStrip issue.body) := by
      rcases h2 with h2 | h2
      · exact fun hcon => hcon.1 h2
      · exact fun hcon => hcon.2 h2
    rw [hclose]
    simp only [Bool.false_eq_true, if_false]
    rw [if_neg hupd]

lemma classifyTasks_noop (remote : List Issue) (ft : String) (ts : List Task)
    (acc : SyncActions)
    (hpres : ∀ t ∈ ts, (issueTitles remote).contains t.title = true)
    (hcond : ∀ t ∈ ts, ∀ issue, find_issue remote t.title = some issue →
      (t.completed = true → issue.state = IssueState.isClosed) ∧
      (pyStrip t.description = "" ∨ pyStrip t.description = pyStrip issue.body)) :
    classifyTasks remote ft ts acc = acc := by
  induction ts generalizing acc with
  | nil => rfl
  | cons t rest ih =>
    unfold classifyTasks
    rw [if_pos (hpres t (List.mem_cons_self t rest))]
    rw [classifyPresentTask_noop remote t acc (hcond t (List.mem_cons_self t rest))]
    exact ih acc (fun x hx => hpres x (List.mem_cons_of_mem _ hx))
      (fun x hx => hcond x (List.mem_cons_of_mem _ hx))

lemma classifyFeatures_noop (remote : List Issue) (fs : List Feature)
    (acc : SyncActions)
    (hfpres : ∀ f ∈ fs, (issueTitles remote).contains f.title = true)
    (hpres : ∀ f ∈ fs, ∀ t ∈ f.tasks, (issueTitles remote).contains t.title = true)
    (hcond : ∀ f ∈ fs, ∀ t ∈ f.tasks, ∀ issue, find_issue remote t.title = some issue →
      (t.completed = true → issue.state = IssueState.isClosed) ∧
      (pyStrip t.description = "" ∨ pyStrip t.description = pyStrip issue.body)) :
    classifyFeatures remote fs acc = acc := by
  induction fs generalizing acc with
  | nil => rfl
  | cons f rest ih =>
    unfold classifyFeatures
    rw [if_pos (hfpres f (List.mem_cons_self f rest))]
    dsimp only
    rw [classifyTasks_noop remote f.title f.tasks acc
      (hpres f (List.mem_cons_self f rest)) (hcond f (List.mem_cons_self f rest))]
    exact ih acc (fun x hx => hfpres x (List.mem_cons_of_mem _ hx))
      (fun x hx => hpres x (List.mem_cons_of_mem _ hx))
      (fun x hx => hcond x (List.mem_cons_of_mem _ hx))

lemma classifyMilestones_noop (rms : List String) (ms : List Milestone)
    (acc : SyncActions)
    (h : ∀ m ∈ ms, rms.contains m.name = true) :
    classifyMilestones rms ms acc = acc := by
  induction ms generalizing acc with
  | nil => rfl
  | cons m rest ih =>
    unfold classifyMilestones
    rw [if_pos (h m (List.mem_cons_self m rest))]
    exact ih acc (fun x hx => h x (List.mem_cons_of_mem _ hx))

/-! ## Claim C1 — idempotence of reconciliation (corrected) -/

/-- The concrete roadmap used in the idempotence counterexample: one
feature `F` with one task `T` carrying a non-empty description. -/
def c1Roadmap : Roadmap :=
  { name := "R", description := "",
    milestones := [],
    features := [
      { title := "F", description := "", milestone := none,
        labels := [], assignees := [],
        tasks := [
          { title := "T", description := "d", labels := [], assignees := [],
            tests := [], completed := false }] }] }

/-- C1 (counterexample): reconciliation is not idempotent.  Running the
sync classification and apply against an empty tracker, then running the
classification again against exactly the resulting tracker state (every
feature and task title present, the task issue body being the task
description with the parent-link suffix appended), yields a non-empty
body-update set: the stored body `"d\n\nParent issue: #1"` differs from
the local description `"d"`, so the second run emits `UPDATE_BODY`. -/
theorem sync_not_idempotent_counterexample :
    (syncClassify (validate_roadmap c1Roadmap)
        (syncApply (fun _ => false)
          (syncClassify (validate_roadmap c1Roadmap) [] []) ⟨[], 1⟩).2.issues
        []).tasks_to_update ≠ [] := by
  decide

/-- C1 (amended): re-running the classification yields no creations
whenever every milestone name, feature title and task title is already
present remotely; it additionally yields no body updates and no closes
provided every task's stripped description is empty or equal to the
stripped stored issue body, and no completed task's issue is still
open.  (After a first run the stored body of a created task issue is
the description plus the parent-link suffix, so a task with a non-empty
description fails this proviso and receives a body update.) -/
theorem sync_idempotent_amended (r : Roadmap) (remote : List Issue) (rms : List String)
    (hms : ∀ m ∈ r.milestones, rms.contains m.name = true)
    (hfpres : ∀ f ∈ r.features, (issueTitles remote).contains f.title = true)
    (htpres : ∀ f ∈ r.features, ∀ t ∈ f.tasks, (issueTitles remote).contains t.title = true)
    (hcond : ∀ f ∈ r.features, ∀ t ∈ f.tasks, ∀ issue,
      find_issue remote t.title = some issue →
      (t.completed = true → issue.state = IssueState.isClosed) ∧
      (pyStrip t.description = "" ∨ pyStrip t.description = pyStrip issue.body)) :
    syncClassify r remote rms = emptyActions := by
  unfold syncClassify
  rw [classifyMilestones_noop rms r.milestones emptyActions hms]
  exact classifyFeatures_noop remote r.features emptyActions hfpres htpres hcond

/-- Witness for `sync_idempotent_amended` at a concrete roadmap and
remote state. -/
theorem sync_idempotent_amended_witness :
    syncClassify
      { name := "R", description := "", milestones := [⟨"M", none⟩],
        features := [
          { title := "F", description := "", milestone := none,
            labels := [], assignees := [],
            tasks := [
              { title := "T", description := "", labels := [], assignees := [],
                tests := [], completed := false }] }] }
      [⟨1, "F", "", IssueState.isOpen⟩, ⟨2, "T", "Parent issue: #1", IssueState.isOpen⟩]
      ["M"] = emptyActions :=
  sync_idempotent_amended _ _ _
    (by decide) (by decide) (by decide)
    (by intro f hf t ht issue hfind
        rcases List.mem_singleton.1 hf with rfl
        rcases List.mem_singleton.1 ht with rfl
        constructor
        · intro hc; exact absurd hc (by decide)
        · left; decide)

/-! ## Claim C10 — only task issues receive updates and closes -/

/-- C10: a feature whose title is already present in the snapshot is
left untouched by the classification: no body update and no close ever
targets an issue bearing its title (unless some task shares that
title), and the feature is not re-created.  Updates and closes are
computed exclusively from tasks. -/
theorem sync_features_never_updated_or_closed (r : Roadmap) (remote : List Issue)
    (rms : List String) (f : Feature) (_hf : f ∈ r.features)
    (hpres : f.title ∈ issueTitles remote)
    (hnotask : f.title ∉ taskTitles r) :
    (∀ p ∈ (syncClassify r remote rms).tasks_to_update, p.1.title ≠ f.title) ∧
    (∀ i ∈ (syncClassify r remote rms).tasks_to_close, i.title ≠ f.title) ∧
    f ∉ (syncClassify r remote rms).features_to_create := by
  unfold syncClassify
  obtain ⟨hperf, hpu, hpc⟩ := classifyMilestones_features rms r.milestones emptyActions
  refine ⟨?_, ?_, ?_⟩
  · intro p hp
    rcases classifyFeatures_update_mem remote r.features _ p hp with h | ⟨g, hg, t, ht, hfind, _⟩
    · rw [hpu] at h
      simp [emptyActions] at h
    · have hteq : p.1.title = t.title := find_issue_title _ _ _ hfind
      intro hcon
      exact hnotask (hcon ▸ hteq ▸ mem_taskTitles r g t hg ht)
  · intro i hi
    rcases classifyFeatures_close_mem remote r.features _ i hi with h | ⟨g, hg, t, ht, hfind⟩
    · rw [hpc] at h
      simp [emptyActions] at h
    · have hteq : i.title = t.title := find_issue_title _ _ _ hfind
      intro hcon
      exact hnotask (hcon ▸ hteq ▸ mem_taskTitles r g t hg ht)
  · intro hcon
    rcases classifyFeatures_featcreate_mem remote r.features _ f hcon with h | ⟨g, hg, rfl, hc⟩
    · rw [hperf] at h
      simp [emptyActions] at h
    · have hmem : (issueTitles remote).contains f.title = true :=
        List.elem_eq_true_of_mem hpres
      rw [hmem] at hc
      exact Bool.noConfusion hc

/-- Concrete data for the C10 witness: a feature present remotely with
a differing body and an open issue. -/
def c10Feature : Feature :=
  { title := "F", description := "local body", milestone := none,
    labels := [], assignees := [], tasks := [] }

def c10Roadmap : Roadmap :=
  { name := "R", description := "", milestones := [], features := [c10Feature] }

def c10Remote : List Issue := [⟨1, "F", "remote body", IssueState.isOpen⟩]

/-- Witness for `sync_features_never_updated_or_closed`: a present
feature whose remote body differs and whose issue is open receives no
action. -/
theorem sync_features_never_updated_or_closed_witness :
    (∀ p ∈ (syncClassify c10Roadmap c10Remote []).tasks_to_update,
      p.1.title ≠ c10Feature.title) ∧
    (∀ i ∈ (syncClassify c10Roadmap c10Remote []).tasks_to_close,
      i.title ≠ c10Feature.title) ∧
    c10Feature ∉ (syncClassify c10Roadmap c10Remote []).features_to_create :=
  sync_features_never_updated_or_closed c10Roadmap c10Remote [] c10Feature
    (by decide) (by decide) (by decide)

/-! ## The parent-link suffix survives Python strip -/

lemma dropWhile_append_cons (p : Char → Bool) (l₁ : List Char) (c : Char)
    (l₂ : List Char) (h : p c = false) :
    (l₁ ++ c :: l₂).dropWhile p = l₁.dropWhile p ++ c :: l₂ := by
  induction l₁ with
  | nil => simp [List.dropWhile_cons, h]
  | cons a l ih =>
    by_cases ha : p a
    · simp [List.dropWhile_cons, ha, ih]
    · simp [List.dropWhile_cons, ha]

/-- Stripping a string whose interesting part starts and ends with a
non-whitespace character only erodes the left of the prefix part. -/
lemma stripChars_append_of_ends (l₁ : List Char) (c : Char) (mid : List Char)
    (d : Char) (hc : isPySpace c = false) (hd : isPySpace d = false) :
    stripChars (l₁ ++ c :: (mid ++ [d])) =
      l₁.dropWhile isPySpace ++ c :: (mid ++ [d]) := by
  unfold stripChars
  rw [dropWhile_append_cons _ _ _ _ hc]
  have hshape : l₁.dropWhile isPySpace ++ c :: (mid ++ [d]) =
      (l₁.dropWhile isPySpace ++ c :: mid) ++ [d] := by simp
  rw [hshape, List.reverse_append]
  simp [List.dropWhile_cons, hd]

lemma toDigitsCore_ten (fuel n : Nat) (ds : List Char) (h : fuel ≠ 0) :
    ∃ l, Nat.toDigitsCore 10 fuel n ds = l ++ Nat.digitChar (n % 10) :: ds := by
  induction fuel generalizing n ds with
  | zero => exact absurd rfl h
  | succ f ih =>
    rw [Nat.toDigitsCore]
    by_cases h0 : n / 10 = 0
    · rw [if_pos h0]
      exact ⟨[], rfl⟩
    · rw [if_neg h0]
      by_cases hf : f = 0
      · subst hf
        rw [Nat.toDigitsCore]
        exact ⟨[], rfl⟩
      · obtain ⟨l, hl⟩ := ih (n / 10) (Nat.digitChar (n % 10) :: ds) hf
        exact ⟨l ++ [Nat.digitChar (n / 10 % 10)], by rw [hl]; simp⟩

/-- The decimal rendering of a natural number ends in its final
digit. -/
lemma repr_data_eq_append_digit (n : Nat) :
    ∃ l, (Nat.repr n).data = l ++ [Nat.digitChar (n % 10)] := by
  obtain ⟨l, hl⟩ := toDigitsCore_ten (n + 1) n [] (Nat.succ_ne_zero n)
  exact ⟨l, hl⟩

lemma digitChar_not_space (k : Nat) (h : k < 10) :
    isPySpace (Nat.digitChar k) = false := by
  interval_cases k <;> decide

lemma string_append_data (s t : String) : (s ++ t).data = s.data ++ t.data := rfl

lemma pyStrip_data (s : String) : (pyStrip s).data = stripChars s.data := rfl

/-- The body built for a created task contains the literal parent-link
substring: `strip` only removes whitespace from the two ends, the
substring starts with `P` and ends with a decimal digit. -/
lemma parent_link_infix (body : String) (n : Nat) :
    ("Parent issue: #" ++ Nat.repr n).data <:+:
      (pyStrip (body ++ "\n\nParent issue: #" ++ Nat.repr n)).data := by
  obtain ⟨l, hl⟩ := repr_data_eq_append_digit n
  have hlit1 : ("Parent issue: #" : String).data =
      'P' :: ("arent issue: #" : String).data := by decide
  have hlit2 : ("\n\nParent issue: #" : String).data =
      ['\n', '\n'] ++ 'P' :: ("arent issue: #" : String).data := by decide
  rw [pyStrip_data, string_append_data, string_append_data, string_append_data,
    hl, hlit1, hlit2]
  have hshape : body.data ++ (['\n', '\n'] ++ 'P' :: ("arent issue: #" : String).data) ++
      (l ++ [Nat.digitChar (n % 10)]) =
      (body.data ++ ['\n', '\n']) ++
        'P' :: ((("arent issue: #" : String).data ++ l) ++ [Nat.digitChar (n % 10)]) := by
    simp
  rw [hshape, stripChars_append_of_ends _ _ _ _ (by decide)
    (digitChar_not_space (n % 10) (Nat.mod_lt n (by decide)))]
  refine ⟨(body.data ++ ['\n', '\n']).dropWhile isPySpace, [], ?_⟩
  simp

/-! ## Claim C3 — parent linking -/

lemma syncApplyTaskGroup_createdTask (fails : String → Bool) (pn : Nat)
    (fk0 : String) (ts : List Task) (st : RemoteState)
    (fk t b : String) (num : Nat)
    (h : SyncEvent.createdTask fk t b num ∈ (syncApplyTaskGroup fails pn fk0 ts st).events) :
    fk = fk0 ∧ containsSub ("Parent issue: #" ++ Nat.repr pn) b := by
  induction ts generalizing st with
  | nil => simp [syncApplyTaskGroup] at h
  | cons tk rest ih =>
    unfold syncApplyTaskGroup at h
    split at h
    · simp at h
    · dsimp only at h
      rcases List.mem_cons.1 h with he | he
      · obtain ⟨rfl, -, rfl, -⟩ : fk = fk0 ∧ t = pyStrip tk.title ∧
            b = pyStrip (tk.description ++ "\n\nParent issue: #" ++ Nat.repr pn) ∧
            num = _ := by
          injection he with h1 h2 h3 h4
          exact ⟨h1, h2, h3, h4⟩
        exact ⟨rfl, parent_link_infix tk.description pn⟩
      · exact ih _ he

lemma syncApplyTaskGroups_createdTask (fails : String → Bool)
    (fmap : List (String × Issue)) (groups : List (String × List Task))
    (st : RemoteState) (fk t b : String) (num : Nat)
    (h : SyncEvent.createdTask fk t b num ∈ (syncApplyTaskGroups fails fmap groups st).events) :
    ∃ (stAt : RemoteState) (p : Issue),
      resolveParent fmap stAt fk = some p ∧
      containsSub ("Parent issue: #" ++ Nat.repr p.number) b := by
  induction groups generalizing st with
  | nil => simp [syncApplyTaskGroups] at h
  | cons g rest ih =>
    unfold syncApplyTaskGroups at h
    cases hr : resolveParent fmap st g.1 with
    | none =>
      rw [hr] at h
      exact ih _ h
    | some p =>
      rw [hr] at h
      dsimp only at h
      split at h
      · obtain ⟨rfl, hc⟩ := syncApplyTaskGroup_createdTask fails p.number g.1 g.2 st fk t b num h
        exact ⟨st, p, hr, hc⟩
      · rcases List.mem_append.1 h with h1 | h2
        · obtain ⟨rfl, hc⟩ := syncApplyTaskGroup_createdTask fails p.number g.1 g.2 st fk t b num h1
          exact ⟨st, p, hr, hc⟩
        · exact ih _ h2

lemma syncApplyFeatures_fmap_mem (fails : String → Bool) (feats : List Feature)
    (st : RemoteState) (fmap0 : List (String × Issue)) (k : String) (i : Issue)
    (h : (k, i) ∈ (syncApplyFeatures fails feats st fmap0).fmap) :
    (k, i) ∈ fmap0 ∨
      SyncEvent.createdFeature (pyStrip k) i.number ∈
        (syncApplyFeatures fails feats st fmap0).events := by
  induction feats generalizing st fmap0 with
  | nil => exact Or.inl h
  | cons f rest ih =>
    unfold syncApplyFeatures at h ⊢
    split at h
    · exact Or.inl h
    · rename_i hfl
      rw [if_neg hfl]
      dsimp only at h ⊢
      rcases ih _ _ h with hmem | hev
      · rcases List.mem_cons.1 hmem with he | he
        · obtain ⟨rfl, rfl⟩ : k = f.title ∧ i = (create_issue st (pyStrip f.title) f.description).1 := by
            injection he with h1 h2
            exact ⟨h1, h2⟩
          exact Or.inr (List.mem_cons_self _ _)
        · exact Or.inl he
      · exact Or.inr (List.mem_cons_of_mem _ hev)

lemma syncApplyFeatures_events_shape (fails : String → Bool) (feats : List Feature)
    (st : RemoteState) (fmap0 : List (String × Issue)) (e : SyncEvent)
    (h : e ∈ (syncApplyFeatures fails feats st fmap0).events) :
    (∃ s n, e = SyncEvent.createdFeature s n) ∨ e = SyncEvent.abortedRun := by
  induction feats generalizing st fmap0 with
  | nil => simp [syncApplyFeatures] at h
  | cons f rest ih =>
    unfold syncApplyFeatures at h
    split at h
    · rcases List.mem_singleton.1 h with rfl
      exact Or.inr rfl
    · dsimp only at h
      rcases List.mem_cons.1 h with rfl | he
      · exact Or.inl ⟨_, _, rfl⟩
      · exact ih _ _ he

/-- Feature-phase events are part of the full run's event list. -/
lemma syncApply_featureEvents_sub (fails : String → Bool) (acts : SyncActions)
    (st0 : RemoteState) (e : SyncEvent)
    (h : e ∈ (syncApplyFeatures fails acts.features_to_create st0 []).events) :
    e ∈ (syncApply fails acts st0).1 := by
  unfold syncApply
  dsimp only
  split
  · exact List.mem_append.2 (Or.inr h)
  · split
    · exact List.mem_append.2 (Or.inl (List.mem_append.2 (Or.inr h)))
    · exact List.mem_append.2 (Or.inl (List.mem_append.2 (Or.inl
        (List.mem_append.2 (Or.inl (List.mem_append.2 (Or.inr h)))))))

/-- A created-task event of the full run comes from the task-group
phase. -/
lemma syncApply_createdTask_from_groups (fails : String → Bool) (acts : SyncActions)
    (st0 : RemoteState) (fk t b : String) (num : Nat)
    (h : SyncEvent.createdTask fk t b num ∈ (syncApply fails acts st0).1) :
    SyncEvent.createdTask fk t b num ∈
      (syncApplyTaskGroups fails
        (syncApplyFeatures fails acts.features_to_create st0 []).fmap
        acts.tasks_to_create
        (syncApplyFeatures fails acts.features_to_create st0 []).st).events := by
  have hms : ∀ e ∈ acts.milestones_to_create.map
      (fun m => SyncEvent.createdMilestone m.name),
      ∀ fk2 t2 b2 num2, e ≠ SyncEvent.createdTask fk2 t2 b2 num2 := by
    intro e he fk2 t2 b2 num2
    rcases List.mem_map.1 he with ⟨m, -, rfl⟩
    simp
  unfold syncApply at h
  dsimp only at h
  split at h
  · rcases List.mem_append.1 h with h1 | h2
    · exact absurd rfl (hms _ h1 fk t b num)
    · rcases syncApplyFeatures_events_shape fails _ st0 [] _ h2 with ⟨s, n, he⟩ | he <;>
        simp at he
  · split at h
    · rcases List.mem_append.1 h with h1 | h2
      · rcases List.mem_append.1 h1 with h3 | h4
        · exact absurd rfl (hms _ h3 fk t b num)
        · rcases syncApplyFeatures_events_shape fails _ st0 [] _ h4 with ⟨s, n, he⟩ | he <;>
            simp at he
      · exact h2
    · rcases List.mem_append.1 h with h1 | h2
      · rcases List.mem_append.1 h1 with h3 | h4
        · rcases List.mem_append.1 h3 with h5 | h6
          · rcases List.mem_append.1 h5 with h7 | h8
            · exact absurd rfl (hms _ h7 fk t b num)
            · rcases syncApplyFeatures_events_shape fails _ st0 [] _ h8 with ⟨s, n, he⟩ | he <;>
                simp at he
          · exact h6
        · rcases List.mem_map.1 h4 with ⟨p, -, he⟩
          simp at he
      · rcases List.mem_map.1 h2 with ⟨i, -, he⟩
        simp at he

/-- C3: parent linking.  Every task issue created by the sync apply
phase has a body containing the literal substring
`"Parent issue: #<N>"`, where `N` is the number of the issue resolved
as the task's parent: the entry of `feature_object_map` for the owning
feature's title when that feature was created in the same run (its
number being exactly the number returned by that create call, recorded
in the run's created-feature event), and otherwise the result of a
lookup of the feature title against the tracker. -/
theorem sync_parent_linking (fails : String → Bool) (acts : SyncActions)
    (st0 : RemoteState) :
    (∀ fk t b num, SyncEvent.createdTask fk t b num ∈ (syncApply fails acts st0).1 →
      ∃ (stAt : RemoteState) (p : Issue),
        resolveParent (syncApplyFeatures fails acts.features_to_create st0 []).fmap
          stAt fk = some p ∧
        containsSub ("Parent issue: #" ++ Nat.repr p.number) b) ∧
    (∀ k i, (k, i) ∈ (syncApplyFeatures fails acts.features_to_create st0 []).fmap →
      SyncEvent.createdFeature (pyStrip k) i.number ∈ (syncApply fails acts st0).1) ∧
    (∀ (fmap : List (String × Issue)) (stAt : RemoteState) (fk : String) (i : Issue),
      fmap.lookup fk = some i → resolveParent fmap stAt fk = some i) ∧
    (∀ (fmap : List (String × Issue)) (stAt : RemoteState) (fk : String) (p : Issue),
      fmap.lookup fk = none → resolveParent fmap stAt fk = some p → p.title = fk) := by
  refine ⟨?_, ?_, ?_, ?_⟩
  · intro fk t b num h
    exact syncApplyTaskGroups_createdTask fails _ _ _ fk t b num
      (syncApply_createdTask_from_groups fails acts st0 fk t b num h)
  · intro k i h
    rcases syncApplyFeatures_fmap_mem fails _ st0 [] k i h with h2 | h2
    · simp at h2
    · exact syncApply_featureEvents_sub fails acts st0 _ h2
  · intro fmap stAt fk i hl
    unfold resolveParent
    rw [hl]
  · intro fmap stAt fk p hl hr
    unfold resolveParent at hr
    rw [hl] at hr
    exact find_issue_title _ _ _ hr

/-- Concrete inputs for the C3 witness: one absent feature `F` with one
absent task `T`. -/
def c3Actions : SyncActions :=
  syncClassify (validate_roadmap c1Roadmap) [] []

/-- Witness for `sync_parent_linking` at the concrete run of
`c3Actions` from an empty tracker: the task-create event for `T` under
`F` carries body `"d\n\nParent issue: #1"`, and the resolved parent is
the feature issue numbered 1 created in the same run. -/
theorem sync_parent_linking_witness :
    ∃ (stAt : RemoteState) (p : Issue),
      resolveParent (syncApplyFeatures (fun _ => false)
          c3Actions.features_to_create ⟨[], 1⟩ []).fmap stAt "F" = some p ∧
      containsSub ("Parent issue: #" ++ Nat.repr p.number)
        "d\n\nParent issue: #1" :=
  (sync_parent_linking (fun _ => false) c3Actions ⟨[], 1⟩).1
    "F" "T" "d\n\nParent issue: #1" 2 (by decide)

/-! ## Claim C9 — mutation-failure handling -/

/-- Number of successful create events. -/
def countCreated (evs : List DiffEvent) : Nat :=
  (evs.filter fun e =>
    match e with
    | DiffEvent.created _ _ => true
    | _ => false).length

/-- Number of failed create events. -/
def countFailed (evs : List DiffEvent) : Nat :=
  (evs.filter fun e =>
    match e with
    | DiffEvent.createFailed _ => true
    | _ => false).length

lemma countCreated_append (a b : List DiffEvent) :
    countCreated (a ++ b) = countCreated a + countCreated b := by
  simp [countCreated, List.filter_append]

lemma countFailed_append (a b : List DiffEvent) :
    countFailed (a ++ b) = countFailed a + countFailed b := by
  simp [countFailed, List.filter_append]

lemma countCreated_cons_created (t b : String) (evs : List DiffEvent) :
    countCreated (DiffEvent.created t b :: evs) = countCreated evs + 1 := by
  simp [countCreated, List.filter_cons]

lemma countCreated_cons_failed (t : String) (evs : List DiffEvent) :
    countCreated (DiffEvent.createFailed t :: evs) = countCreated evs := by
  simp [countCreated, List.filter_cons]

lemma countCreated_cons_skipped (t : String) (evs : List DiffEvent) :
    countCreated (DiffEvent.skippedTask t :: evs) = countCreated evs := by
  simp [countCreated, List.filter_cons]

lemma countFailed_cons_created (t b : String) (evs : List DiffEvent) :
    countFailed (DiffEvent.created t b :: evs) = countFailed evs := by
  simp [countFailed, List.filter_cons]

lemma countFailed_cons_failed (t : String) (evs : List DiffEvent) :
    countFailed (DiffEvent.createFailed t :: evs) = countFailed evs + 1 := by
  simp [countFailed, List.filter_cons]

lemma countFailed_cons_skipped (t : String) (evs : List DiffEvent) :
    countFailed (DiffEvent.skippedTask t :: evs) = countFailed evs := by
  simp [countFailed, List.filter_cons]

lemma diffCreateTaskLoop_counts (fails : String → Bool) (missing : List String)
    (ft : String) (ts : List Task) (parent : Option Issue) (st : RemoteState) :
    (diffCreateTaskLoop fails missing ft ts parent st).created_count =
      countCreated (diffCreateTaskLoop fails missing ft ts parent st).events ∧
    (diffCreateTaskLoop fails missing ft ts parent st).failed_count =
      countFailed (diffCreateTaskLoop fails missing ft ts parent st).events := by
  induction ts generalizing parent st with
  | nil => exact ⟨rfl, rfl⟩
  | cons t rest ih =>
    unfold diffCreateTaskLoop
    split
    · split
      · dsimp only
        rw [countCreated_cons_skipped, countFailed_cons_skipped]
        exact ih none st
      · rename_i p heq
        split
        · dsimp only
          rw [countCreated_cons_failed, countFailed_cons_failed]
          obtain ⟨h1, h2⟩ := ih (some p) st
          exact ⟨h1, by omega⟩
        · dsimp only
          rw [countCreated_cons_created, countFailed_cons_created]
          obtain ⟨h1, h2⟩ := ih (some p) (create_issue st (pyStrip t.title)
            (pyStrip (t.description ++ "\n\nParent issue: #" ++ Nat.repr p.number))).2
          exact ⟨by omega, h2⟩
    · exact ih parent st

lemma diffCreateFeatureStep_counts (fails : String → Bool) (missing : List String)
    (f : Feature) (st : RemoteState) :
    (diffCreateFeatureStep fails missing f st).created_count =
      countCreated (diffCreateFeatureStep fails missing f st).events ∧
    (diffCreateFeatureStep fails missing f st).failed_count =
      countFailed (diffCreateFeatureStep fails missing f st).events := by
  unfold diffCreateFeatureStep
  split
  · split <;> exact ⟨rfl, rfl⟩
  · exact ⟨rfl, rfl⟩

lemma diffCreateLoop_counts (fails : String → Bool) (missing : List String)
    (feats : List Feature) (st : RemoteState) :
    (diffCreateLoop fails missing feats st).created_count =
      countCreated (diffCreateLoop fails missing feats st).events ∧
    (diffCreateLoop fails missing feats st).failed_count =
      countFailed (diffCreateLoop fails missing feats st).events := by
  induction feats generalizing st with
  | nil => exact ⟨rfl, rfl⟩
  | cons f rest ih =>
    unfold diffCreateLoop
    obtain ⟨f1, f2⟩ := diffCreateFeatureStep_counts fails missing f st
    obtain ⟨t1, t2⟩ := diffCreateTaskLoop_counts fails missing f.title f.tasks none
      (diffCreateFeatureStep fails missing f st).st
    obtain ⟨r1, r2⟩ := ih (diffCreateTaskLoop fails missing f.title f.tasks none
      (diffCreateFeatureStep fails missing f st).st).st
    dsimp only
    rw [countCreated_append, countCreated_append, countFailed_append, countFailed_append]
    omega

lemma create_issue_issues_ext (st : RemoteState) (a b : String) :
    st.issues <+: (create_issue st a b).2.issues :=
  ⟨[(create_issue st a b).1], rfl⟩

lemma diffCreateTaskLoop_st_ext (fails : String → Bool) (missing : List String)
    (ft : String) (ts : List Task) (parent : Option Issue) (st : RemoteState) :
    st.issues <+: (diffCreateTaskLoop fails missing ft ts parent st).st.issues := by
  induction ts generalizing parent st with
  | nil => exact List.prefix_refl _
  | cons t rest ih =>
    unfold diffCreateTaskLoop
    split
    · split
      · exact ih none st
      · rename_i p heq
        split
        · exact ih (some p) st
        · exact List.IsPrefix.trans (create_issue_issues_ext st _ _) (ih (some p) _)
    · exact ih parent st

lemma diffCreateFeatureStep_st_ext (fails : String → Bool) (missing : List String)
    (f : Feature) (st : RemoteState) :
    st.issues <+: (diffCreateFeatureStep fails missing f st).st.issues := by
  unfold diffCreateFeatureStep
  split
  · split
    · exact List.prefix_refl _
    · exact create_issue_issues_ext st _ _
  · exact List.prefix_refl _

lemma diffCreateLoop_st_ext (fails : String → Bool) (missing : List String)
    (feats : List Feature) (st : RemoteState) :
    st.issues <+: (diffCreateLoop fails missing feats st).st.issues := by
  induction feats generalizing st with
  | nil => exact List.prefix_refl _
  | cons f rest ih =>
    unfold diffCreateLoop
    exact List.IsPrefix.trans (diffCreateFeatureStep_st_ext fails missing f st)
      (List.IsPrefix.trans (diffCreateTaskLoop_st_ext fails missing f.title f.tasks none _)
        (ih _))

/-- Every missing feature is attempted by the diff creation loop, no
matter what failed before it. -/
lemma diffCreateLoop_features_attempted (fails : String → Bool) (missing : List String)
    (feats : List Feature) (st : RemoteState) (f : Feature) (hf : f ∈ feats)
    (hm : missing.contains f.title = true) :
    DiffEvent.created (pyStrip f.title) f.description ∈
        (diffCreateLoop fails missing feats st).events ∨
      DiffEvent.createFailed (pyStrip f.title) ∈
        (diffCreateLoop fails missing feats st).events := by
  induction feats generalizing st with
  | nil => cases hf
  | cons g rest ih =>
    unfold diffCreateLoop
    dsimp only
    rcases List.mem_cons.1 hf with rfl | hf2
    · unfold diffCreateFeatureStep
      rw [if_pos hm]
      by_cases hfl : fails (pyStrip f.title) = true
      · rw [if_pos hfl]
        exact Or.inr (List.mem_append.2 (Or.inl (List.mem_append.2 (Or.inl
          (List.mem_singleton.2 rfl)))))
      · rw [if_neg hfl]
        exact Or.inl (List.mem_append.2 (Or.inl (List.mem_append.2 (Or.inl
          (List.mem_singleton.2 rfl)))))
    · rcases ih _ hf2 with h | h
      · exact Or.inl (List.mem_append.2 (Or.inr h))
      · exact Or.inr (List.mem_append.2 (Or.inr h))

/-- C9 (amended, diff part): in the `diff` command's creation phase the
running counters track exactly the successful and failed create events,
every missing feature is attempted exactly as the loop reaches it
regardless of earlier failures, and already-created issues persist (no
rollback: the incoming tracker state is a prefix of the outgoing
one). -/
theorem diff_mutation_failure_tolerance (fails : String → Bool)
    (missing : List String) (feats : List Feature) (st : RemoteState) :
    (diffCreateLoop fails missing feats st).created_count =
      countCreated (diffCreateLoop fails missing feats st).events ∧
    (diffCreateLoop fails missing feats st).failed_count =
      countFailed (diffCreateLoop fails missing feats st).events ∧
    (∀ f ∈ feats, missing.contains f.title = true →
      DiffEvent.created (pyStrip f.title) f.description ∈
          (diffCreateLoop fails missing feats st).events ∨
        DiffEvent.createFailed (pyStrip f.title) ∈
          (diffCreateLoop fails missing feats st).events) ∧
    st.issues <+: (diffCreateLoop fails missing feats st).st.issues := by
  obtain ⟨h1, h2⟩ := diffCreateLoop_counts fails missing feats st
  exact ⟨h1, h2,
    fun f hf hm => diffCreateLoop_features_attempted fails missing feats st f hf hm,
    diffCreateLoop_st_ext fails missing feats st⟩

/-- Concrete inputs showing the contrast between diff and sync: two
missing features, the first of which fails to create. -/
def c9Roadmap : Roadmap :=
  { name := "R", description := "", milestones := [],
    features := [
      { title := "F1", description := "", milestone := none,
        labels := [], assignees := [], tasks := [] },
      { title := "F2", description := "", milestone := none,
        labels := [], assignees := [], tasks := [] }] }

def c9Fails : String → Bool := fun s => s == "F1"

/-- Witness for `diff_mutation_failure_tolerance`: with `F1` failing,
`F2` is still attempted (and created), and the counters read one
success and one failure. -/
theorem diff_mutation_failure_tolerance_witness :
    (DiffEvent.created (pyStrip "F2") "" ∈
        (diffCreateLoop c9Fails ["F1", "F2"] c9Roadmap.features ⟨[], 1⟩).events ∨
      DiffEvent.createFailed (pyStrip "F2") ∈
        (diffCreateLoop c9Fails ["F1", "F2"] c9Roadmap.features ⟨[], 1⟩).events) ∧
    (diffCreateLoop c9Fails ["F1", "F2"] c9Roadmap.features ⟨[], 1⟩).created_count =
      countCreated (diffCreateLoop c9Fails ["F1", "F2"] c9Roadmap.features ⟨[], 1⟩).events :=
  ⟨(diff_mutation_failure_tolerance c9Fails ["F1", "F2"] c9Roadmap.features ⟨[], 1⟩).2.2.1
      { title := "F2", description := "", milestone := none,
        labels := [], assignees := [], tasks := [] }
      (by decide) (by decide),
    (diff_mutation_failure_tolerance c9Fails ["F1", "F2"] c9Roadmap.features ⟨[], 1⟩).1⟩

/-- C9 (counterexample): in the `sync` command a failing create does
not produce a failure-counter entry and does not continue with the
remaining items — the run aborts at once.  With two features to create
and the first failing, the apply phase's whole event list is just the
abort marker; no event for `F2` exists. -/
theorem sync_mutation_failure_aborts_counterexample :
    (syncApply c9Fails (syncClassify c9Roadmap [] []) ⟨[], 1⟩).1 =
      [SyncEvent.abortedRun] := by
  decide

/-! ## Claim C2 — set diff and create attempts -/

lemma contains_true_iff (l : List String) (s : String) :
    l.contains s = true ↔ s ∈ l :=
  List.elem_iff

lemma stripChars_eq_rdrop (l : List Char) :
    stripChars l = List.rdropWhile isPySpace (l.dropWhile isPySpace) := rfl

lemma stripChars_idem (l : List Char) :
    stripChars (stripChars l) = stripChars l := by
  rw [stripChars_eq_rdrop, stripChars_eq_rdrop]
  have hdy : (l.dropWhile isPySpace).dropWhile isPySpace = l.dropWhile isPySpace :=
    List.dropWhile_idempotent isPySpace l
  set y := l.dropWhile isPySpace with hy
  have hpre : List.rdropWhile isPySpace y <+: y := List.rdropWhile_prefix _ _
  have hdz : (List.rdropWhile isPySpace y).dropWhile isPySpace =
      List.rdropWhile isPySpace y := by
    rcases hz : List.rdropWhile isPySpace y with _ | ⟨a, zt⟩
    · simp
    · have hyz : a :: zt <+: y := hz ▸ hpre
      obtain ⟨tail, htail⟩ := hyz
      have hya : y = a :: (zt ++ tail) := by rw [← htail]; simp
      rw [hya, List.dropWhile_cons] at hdy
      by_cases hpa : isPySpace a = true
      · rw [if_pos hpa] at hdy
        have hlen := congrArg List.length hdy
        rw [List.length_cons] at hlen
        have hle : (List.dropWhile isPySpace (zt ++ tail)).length ≤ (zt ++ tail).length :=
          (List.dropWhile_sublist _).length_le
        omega
      · rw [List.dropWhile_cons, if_neg hpa]
  rw [hdz, List.rdropWhile_idempotent]

lemma pyStrip_stripTitle (s : String) : pyStrip (stripTitle s) = stripTitle s := by
  unfold pyStrip stripTitle
  exact congrArg String.mk (stripChars_idem _)

/-- All titles of a validated roadmap are fixed points of `strip`. -/
lemma validate_titles (r : Roadmap) :
    ∀ f ∈ (validate_roadmap r).features,
      pyStrip f.title = f.title ∧ ∀ t ∈ f.tasks, pyStrip t.title = t.title := by
  intro f hf
  simp only [validate_roadmap, List.mem_map] at hf
  obtain ⟨g, hg, rfl⟩ := hf
  refine ⟨pyStrip_stripTitle _, ?_⟩
  intro t ht
  simp only [List.mem_map] at ht
  obtain ⟨t0, ht0, rfl⟩ := ht
  exact pyStrip_stripTitle _

lemma mem_missingTitles (r : Roadmap) (gh : List String) (s : String) :
    s ∈ missingTitles r gh ↔ s ∈ roadmapTitles r ∧ s ∉ gh := by
  simp [missingTitles, List.mem_filter, contains_true_iff]

lemma mem_extraTitles (gh : List String) (r : Roadmap) (s : String) :
    s ∈ extraTitles gh r ↔ s ∈ gh ∧ s ∉ roadmapTitles r := by
  simp [extraTitles, List.mem_filter, contains_true_iff]

lemma attemptedTitles_append (a b : List DiffEvent) :
    attemptedTitles (a ++ b) = attemptedTitles a ++ attemptedTitles b := by
  simp [attemptedTitles]

lemma attemptedTitles_cons_created (t b : String) (evs : List DiffEvent) :
    attemptedTitles (DiffEvent.created t b :: evs) = t :: attemptedTitles evs := rfl

lemma attemptedTitles_cons_failed (t : String) (evs : List DiffEvent) :
    attemptedTitles (DiffEvent.createFailed t :: evs) = t :: attemptedTitles evs := rfl

lemma attemptedTitles_cons_skipped (t : String) (evs : List DiffEvent) :
    attemptedTitles (DiffEvent.skippedTask t :: evs) = attemptedTitles evs := rfl

lemma diffTaskLoop_attempted_sub (fails : String → Bool) (missing : List String)
    (ft : String) (ts : List Task) (parent : Option Issue) (st : RemoteState)
    (ht : ∀ t ∈ ts, pyStrip t.title = t.title) :
    ∀ s ∈ attemptedTitles (diffCreateTaskLoop fails missing ft ts parent st).events,
      s ∈ missing := by
  induction ts generalizing parent st with
  | nil =>
    intro s hs
    simp [diffCreateTaskLoop, attemptedTitles] at hs
  | cons t rest ih =>
    intro s hs
    have hthead := ht t (List.mem_cons_self t rest)
    have htrest := fun x hx => ht x (List.mem_cons_of_mem _ hx)
    unfold diffCreateTaskLoop at hs
    split at hs
    · rename_i hcont
      split at hs
      · dsimp only at hs
        rw [attemptedTitles_cons_skipped] at hs
        exact ih none st htrest s hs
      · rename_i p heq
        split at hs
        · dsimp only at hs
          rw [attemptedTitles_cons_failed] at hs
          rcases List.mem_cons.1 hs with rfl | hs2
          · rw [hthead]
            exact (contains_true_iff _ _).1 hcont
          · exact ih (some p) st htrest s hs2
        · dsimp only at hs
          rw [attemptedTitles_cons_created] at hs
          rcases List.mem_cons.1 hs with rfl | hs2
          · rw [hthead]
            exact (contains_true_iff _ _).1 hcont
          · exact ih (some p) _ htrest s hs2
    · exact ih parent st htrest s hs

lemma diffFeatureStep_attempted_sub (fails : String → Bool) (missing : List String)
    (f : Feature) (st : RemoteState) (hf : pyStrip f.title = f.title) :
    ∀ s ∈ attemptedTitles (diffCreateFeatureStep fails missing f st).events,
      s ∈ missing := by
  intro s hs
  unfold diffCreateFeatureStep at hs
  split at hs
  · rename_i hcont
    split at hs
    · rw [attemptedTitles_cons_failed] at hs
      rcases List.mem_cons.1 hs with rfl | hs2
      · rw [hf]
        exact (contains_true_iff _ _).1 hcont
      · simp [attemptedTitles] at hs2
    · dsimp only at hs
      rw [attemptedTitles_cons_created] at hs
      rcases List.mem_cons.1 hs with rfl | hs2
      · rw [hf]
        exact (contains_true_iff _ _).1 hcont
      · simp [attemptedTitles] at hs2
  · simp [attemptedTitles] at hs

lemma diffLoop_attempted_sub (fails : String → Bool) (missing : List String)
    (feats : List Feature) (st : RemoteState)
    (htitles : ∀ f ∈ feats,
      pyStrip f.title = f.title ∧ ∀ t ∈ f.tasks, pyStrip t.title = t.title) :
    ∀ s ∈ attemptedTitles (diffCreateLoop fails missing feats st).events,
      s ∈ missing := by
  induction feats generalizing st with
  | nil =>
    intro s hs
    simp [diffCreateLoop, attemptedTitles] at hs
  | cons f rest ih =>
    intro s hs
    unfold diffCreateLoop at hs
    dsimp only at hs
    rw [attemptedTitles_append, attemptedTitles_append] at hs
    rcases List.mem_append.1 hs with hs1 | hs2
    · rcases List.mem_append.1 hs1 with hs3 | hs4
      · exact diffFeatureStep_attempted_sub fails missing f st
          (htitles f (List.mem_cons_self f rest)).1 s hs3
      · exact diffTaskLoop_attempted_sub fails missing f.title f.tasks none _
          (htitles f (List.mem_cons_self f rest)).2 s hs4
    · exact ih _ (fun x hx => htitles x (List.mem_cons_of_mem _ hx)) s hs2

lemma find_issue_of_exists (issues : List Issue) (s : String)
    (h : ∃ i ∈ issues, i.title = s) : ∃ p, find_issue issues s = some p := by
  rcases h with ⟨i, hi, rfl⟩
  have hsome : (List.find? (fun x => x.title == i.title) issues).isSome :=
    List.find?_isSome.2 ⟨i, hi, by simp⟩
  exact Option.isSome_iff_exists.1 hsome

lemma mem_attempted_of_created (t b : String) (evs : List DiffEvent)
    (h : DiffEvent.created t b ∈ evs) : t ∈ attemptedTitles evs :=
  List.mem_filterMap.2 ⟨DiffEvent.created t b, h, rfl⟩

lemma mem_attempted_of_failed (t : String) (evs : List DiffEvent)
    (h : DiffEvent.createFailed t ∈ evs) : t ∈ attemptedTitles evs :=
  List.mem_filterMap.2 ⟨DiffEvent.createFailed t, h, rfl⟩

/-- In a failure-free run, every missing task title of a feature group
is attempted, provided a parent issue for the feature title is
available (in the tracker state or already cached). -/
lemma diffTaskLoop_tasks_attempted (missing : List String) (ft : String)
    (ts : List Task) (parent : Option Issue) (st : RemoteState)
    (ht : ∀ t ∈ ts, pyStrip t.title = t.title)
    (hex : (∃ i ∈ st.issues, i.title = ft) ∨ ∃ p, parent = some p) :
    ∀ t ∈ ts, missing.contains t.title = true →
      pyStrip t.title ∈
        attemptedTitles (diffCreateTaskLoop (fun _ => false) missing ft ts parent st).events := by
  induction ts generalizing parent st with
  | nil => intro t ht2 _; cases ht2
  | cons tk rest ih =>
    intro t htmem hm
    have htrest := fun x hx => ht x (List.mem_cons_of_mem _ hx)
    have hresolve : ∃ p, resolveParentDiff parent st ft = some p := by
      cases hp : parent with
      | some q => exact ⟨q, rfl⟩
      | none =>
        rcases hex with hex1 | ⟨p, hp2⟩
        · obtain ⟨p, hfind⟩ := find_issue_of_exists st.issues ft hex1
          exact ⟨p, hfind⟩
        · rw [hp] at hp2
          cases hp2
    obtain ⟨p, hp⟩ := hresolve
    rcases List.mem_cons.1 htmem with rfl | htl
    · unfold diffCreateTaskLoop
      rw [if_pos hm, hp]
      exact List.mem_cons_self _ _
    · unfold diffCreateTaskLoop
      by_cases hc : missing.contains tk.title = true
      · rw [if_pos hc, hp]
        exact List.mem_cons_of_mem _
          (ih (some p) _ htrest (Or.inr ⟨p, rfl⟩) t htl hm)
      · rw [if_neg hc]
        exact ih parent st htrest hex t htl hm

lemma exists_issue_mono (stA stB : RemoteState) (s : String)
    (hpre : stA.issues <+: stB.issues) (h : ∃ i ∈ stA.issues, i.title = s) :
    ∃ i ∈ stB.issues, i.title = s := by
  rcases h with ⟨i, hi, rfl⟩
  exact ⟨i, hpre.sublist.subset hi, rfl⟩

/-- In a failure-free run, every missing task title is attempted by the
diff creation loop, provided the parent of every non-missing feature is
already present in the tracker state. -/
lemma diffLoop_tasks_attempted (missing : List String) (feats : List Feature)
    (st : RemoteState)
    (htitles : ∀ f ∈ feats,
      pyStrip f.title = f.title ∧ ∀ t ∈ f.tasks, pyStrip t.title = t.title)
    (hpar : ∀ f ∈ feats, missing.contains f.title = false →
      ∃ i ∈ st.issues, i.title = f.title) :
    ∀ f ∈ feats, ∀ t ∈ f.tasks, missing.contains t.title = true →
      pyStrip t.title ∈
        attemptedTitles (diffCreateLoop (fun _ => false) missing feats st).events := by
  induction feats generalizing st with
  | nil => intro f hf; cases hf
  | cons g rest ih =>
    intro f hf t htk hm
    unfold diffCreateLoop
    dsimp only
    rw [attemptedTitles_append, attemptedTitles_append]
    rcases List.mem_cons.1 hf with rfl | hf2
    · have hex : ∃ i ∈ (diffCreateFeatureStep (fun _ => false) missing f st).st.issues,
          i.title = f.title := by
        by_cases hc : missing.contains f.title = true
        · refine ⟨(create_issue st (pyStrip f.title) f.description).1, ?_, ?_⟩
          · unfold diffCreateFeatureStep
            rw [if_pos hc]
            dsimp only
            exact List.mem_append.2 (Or.inr (List.mem_singleton.2 rfl))
          · exact (htitles f (List.mem_cons_self f rest)).1
        · exact exists_issue_mono st _ _ (diffCreateFeatureStep_st_ext _ _ _ _)
            (hpar f (List.mem_cons_self f rest) (Bool.not_eq_true _ ▸ (by simpa using hc)))
      refine List.mem_append.2 (Or.inl (List.mem_append.2 (Or.inr ?_)))
      exact diffTaskLoop_tasks_attempted missing f.title f.tasks none _
        (htitles f (List.mem_cons_self f rest)).2 (Or.inl hex) t htk hm
    · refine List.mem_append.2 (Or.inr ?_)
      have hpre : st.issues <+:
          (diffCreateTaskLoop (fun _ => false) missing g.title g.tasks none
            (diffCreateFeatureStep (fun _ => false) missing g st).st).st.issues :=
        List.IsPrefix.trans (diffCreateFeatureStep_st_ext _ _ _ _)
          (diffCreateTaskLoop_st_ext _ _ _ _ _ _)
      exact ih _ (fun x hx => htitles x (List.mem_cons_of_mem _ hx))
        (fun x hx hc => exists_issue_mono st _ _ hpre (hpar x (List.mem_cons_of_mem _ hx) hc))
        f hf2 t htk hm

/-- Every missing feature title is attempted by the failure-free diff
creation loop (specialisation of the C9 helper). -/
lemma diffLoop_feature_attempted_title (missing : List String) (feats : List Feature)
    (st : RemoteState) (f : Feature) (hf : f ∈ feats)
    (hm : missing.contains f.title = true) :
    pyStrip f.title ∈
      attemptedTitles (diffCreateLoop (fun _ => false) missing feats st).events := by
  rcases diffCreateLoop_features_attempted (fun _ => false) missing feats st f hf hm with h | h
  · exact mem_attempted_of_created _ _ _ h
  · exact mem_attempted_of_failed _ _ h

/-- C2: the diff command computes `missing = R \ G` and
`extra = G \ R` over the roadmap title set `R` (feature titles plus
task titles) and the snapshot title set `G`, and — in a failure-free
run — the titles for which a create is attempted are exactly the
elements of `missing`. -/
theorem diff_set_diff_and_creates (raw : Roadmap) (snapshot : List Issue) (n0 : Nat) :
    (∀ s, s ∈ missingTitles (validate_roadmap raw) (issueTitles snapshot) ↔
      s ∈ roadmapTitles (validate_roadmap raw) ∧ s ∉ issueTitles snapshot) ∧
    (∀ s, s ∈ extraTitles (issueTitles snapshot) (validate_roadmap raw) ↔
      s ∈ issueTitles snapshot ∧ s ∉ roadmapTitles (validate_roadmap raw)) ∧
    (∀ s, s ∈ attemptedTitles
        (diffCreatePhase (fun _ => false) (validate_roadmap raw) snapshot n0).events ↔
      s ∈ missingTitles (validate_roadmap raw) (issueTitles snapshot)) := by
  refine ⟨fun s => mem_missingTitles _ _ s, fun s => mem_extraTitles _ _ s, fun s => ⟨?_, ?_⟩⟩
  · intro hs
    exact diffLoop_attempted_sub (fun _ => false) _ _ _ (validate_titles raw) s hs
  · intro hs
    obtain ⟨hsR, hsG⟩ := (mem_missingTitles _ _ s).1 hs
    have hmB : (missingTitles (validate_roadmap raw) (issueTitles snapshot)).contains s = true :=
      (contains_true_iff _ _).2 hs
    rcases List.mem_append.1 hsR with hfeat | htask
    · obtain ⟨f, hfm, rfl⟩ := List.mem_map.1 hfeat
      have := diffLoop_feature_attempted_title _ _ ⟨snapshot, n0⟩ f hfm hmB
      rwa [(validate_titles raw f hfm).1] at this
    · rw [List.mem_flatMap] at htask
      obtain ⟨f, hfm, hmem⟩ := htask
      obtain ⟨t, htm, rfl⟩ := List.mem_map.1 hmem
      have hpar : ∀ g ∈ (validate_roadmap raw).features,
          (missingTitles (validate_roadmap raw) (issueTitles snapshot)).contains g.title = false →
          ∃ i ∈ (⟨snapshot, n0⟩ : RemoteState).issues, i.title = g.title := by
        intro g hgm hgc
        have hnot : g.title ∉ missingTitles (validate_roadmap raw) (issueTitles snapshot) := by
          intro hcon
          rw [(contains_true_iff _ _).2 hcon] at hgc
          exact Bool.noConfusion hgc
        have hgR : g.title ∈ roadmapTitles (validate_roadmap raw) :=
          List.mem_append.2 (Or.inl (List.mem_map.2 ⟨g, hgm, rfl⟩))
        have hgG : g.title ∈ issueTitles snapshot := by
          by_contra hng
          exact hnot ((mem_missingTitles _ _ _).2 ⟨hgR, hng⟩)
        obtain ⟨i, him, hit⟩ := List.mem_map.1 hgG
        exact ⟨i, him, hit⟩
      have := diffLoop_tasks_attempted _ _ ⟨snapshot, n0⟩ (validate_titles raw) hpar
        f hfm t htm hmB
      rwa [(validate_titles raw f hfm).2 t htm] at this

/-! ## The Markdown parser (`scaffold/parser.py` lines 14-186)

The parser is embedded line-oriented: `splitNl` is Python
`str.split('\n')`, `joinNl` is `'\n'.join`, and the multiline regex
splits of the source are modelled as line classifiers.  The `\s` of the
source's regexes is modelled as intra-line whitespace: the pathological
case in which a `\s+` run crosses a newline (a heading marker with
nothing after it on its line) is outside the model. -/

abbrev Line := List Char

/-- Python `s.split('\n')`. -/
def splitNl : List Char → List Line
  | [] => [[]]
  | c :: rest =>
    if c = '\n' then [] :: splitNl rest
    else
      match splitNl rest with
      | l :: ls => (c :: l) :: ls
      | [] => [[c]]

/-- Python `'\n'.join(lines)`. -/
def joinNl : List Line → List Char := joinLinesChars

/-- Delimiter of the H2 section split `re.split(r'(^##\s+.*$)', ...)`:
a line starting with `##` followed by whitespace. -/
def isH2Header (l : Line) : Bool :=
  match l with
  | c1 :: c2 :: c3 :: _ => c1 == '#' && c2 == '#' && (isPySpace c3 && c3 ≠ '\n')
  | _ => false

/-- `re.split` by H2 headings with the delimiter captured: the text
before the first heading, then (heading, body) pairs. -/
def splitSections : List Line → List Line × List (Line × List Line)
  | [] => ([], [])
  | l :: rest =>
    let (pre, secs) := splitSections rest
    if isH2Header l then ([], (l, pre) :: secs)
    else (l :: pre, secs)

/-- `re.match(r'^##\s*Milestones', header)` on the stripped header. -/
def isMilestonesHeader (l : Line) : Bool :=
  match l with
  | c1 :: c2 :: rest =>
    c1 == '#' && c2 == '#' && "Milestones".data.isPrefixOf (rest.dropWhile isPySpace)
  | _ => false

/-- `re.match(r'^##\s*Features', header)` on the stripped header. -/
def isFeaturesHeader (l : Line) : Bool :=
  match l with
  | c1 :: c2 :: rest =>
    c1 == '#' && c2 == '#' && "Features".data.isPrefixOf (rest.dropWhile isPySpace)
  | _ => false

def startsWithChar (c : Char) : Line → Bool
  | [] => false
  | a :: _ => a == c

/-- Separator row of a milestone table: `^\|\s*-+`. -/
def isSeparatorRow (r : Line) : Bool :=
  match r with
  | '|' :: rest =>
    match rest.dropWhile isPySpace with
    | '-' :: _ => true
    | _ => false
  | _ => false

/-- Header row of a milestone table: first column lowercased starts
with `milestone`. -/
def isMilestoneHeaderRow (cols : List Line) : Bool :=
  match cols with
  | c0 :: _ => "milestone".data.isPrefixOf (lowerChars c0)
  | [] => false

/-- `[c.strip() for c in row.strip('|').split('|')]`. -/
def rowCols (r : Line) : List Line :=
  ((stripChar '|' r).splitOn '|').map stripChars

/-- Table branch of the milestones block (`parser.py` lines 58-74). -/
def parseTableRows : List Line → List Milestone
  | [] => []
  | row :: rest =>
    let r := stripChars row
    if ¬ startsWithChar '|' r then parseTableRows rest
    else if isSeparatorRow r then parseTableRows rest
    else
      let cols := rowCols r
      if isMilestoneHeaderRow cols then parseTableRows rest
      else
        match cols with
        | c0 :: c1 :: _ =>
          { name := ⟨c0⟩, due_date := if c1.isEmpty then none else some ⟨c1⟩ } ::
            parseTableRows rest
        | _ => parseTableRows rest

/-- List branch of the milestones block (`parser.py` lines 76-83):
`- **Name** — YYYY-MM-DD` rows. -/
def parseListRows : List Line → List Milestone
  | [] => []
  | line :: rest =>
    let s := stripChars line
    if "- ".data.isPrefixOf s then
      let m_line := stripChars (s.drop 2)
      let (namePart, duePart) := splitFirst '—' m_line
      let m_name := stripChar '*' (stripChars namePart)
      let m_due : Option String :=
        match duePart with
        | none => none
        | some d => if d.isEmpty then none else some ⟨stripChars d⟩
      { name := ⟨m_name⟩, due_date := m_due } :: parseListRows rest
    else parseListRows rest

/-- The milestones block (`parser.py` lines 54-83): table rows when any
line starts with a pipe, the dash-list format otherwise. -/
def parseMilestonesSection (body : List Line) : List Milestone :=
  let lines := splitNl (stripChars (joinNl body))
  if lines.any (fun l => startsWithChar '|' (stripChars l)) then parseTableRows lines
  else parseListRows lines

/-- Delimiter of `re.split(r'^###\s+', ...)`: returns the rest of the
line after the heading marker and whitespace run. -/
def isH3Start (l : Line) : Option Line :=
  match l with
  | c1 :: c2 :: c3 :: c4 :: rest =>
    if c1 == '#' && c2 == '#' && c3 == '#' && (isPySpace c4 && c4 ≠ '\n') then
      some ((c4 :: rest).dropWhile isPySpace)
    else none
  | _ => none

/-- Delimiter of `re.split(r'\n^####\s+', ...)`. -/
def isH4Start (l : Line) : Option Line :=
  match l with
  | c1 :: c2 :: c3 :: c4 :: c5 :: rest =>
    if c1 == '#' && c2 == '#' && c3 == '#' && c4 == '#' && (isPySpace c5 && c5 ≠ '\n') then
      some ((c5 :: rest).dropWhile isPySpace)
    else none
  | _ => none

/-- Split a line list at H3 delimiters: text before the first
delimiter, then (title remnant, body lines) parts. -/
def splitH3 : List Line → List Line × List (Line × List Line)
  | [] => ([], [])
  | l :: rest =>
    let (pre, parts) := splitH3 rest
    match isH3Start l with
    | some t => ([], (t, pre) :: parts)
    | none => (l :: pre, parts)

/-- Split at H4 delimiters from the second line on (the regex requires
a preceding newline, so the first line is never a delimiter). -/
def splitH4Aux : List Line → List Line × List (Line × List Line)
  | [] => ([], [])
  | l :: rest =>
    let (pre, parts) := splitH4Aux rest
    match isH4Start l with
    | some t => ([], (t, pre) :: parts)
    | none => (l :: pre, parts)

def splitH4 : List Line → List Line × List (Line × List Line)
  | [] => ([], [])
  | l :: rest =>
    let (pre, parts) := splitH4Aux rest
    (l :: pre, parts)

/-- A `**Tasks:**` separator line of
`re.split(r'\n\s*\*\*Tasks:\*\*\s*\n', ..., flags=IGNORECASE)`. -/
def isTasksSepLine (l : Line) : Bool :=
  lowerChars (stripChars l) == "**tasks:**".data

/-- A `Tests:` separator line of `re.split(r'\nTests:\s*\n', ...,
flags=IGNORECASE)`: no leading whitespace allowed. -/
def isTestsSepLine (l : Line) : Bool :=
  "tests:".data.isPrefixOf (lowerChars l) && (l.drop 6).all isPySpace

/-- Search for a separator from the second line on (the regexes need a
preceding newline) that also has a following line (they need a trailing
newline); split there once. -/
def splitSepAux (isSep : Line → Bool) : List Line → List Line × Option (List Line)
  | [] => ([], none)
  | l :: rest =>
    if isSep l ∧ rest ≠ [] then ([], some rest)
    else
      let (a, b) := splitSepAux isSep rest
      (l :: a, b)

def splitSepOnce (isSep : Line → Bool) : List Line → List Line × Option (List Line)
  | [] => ([], none)
  | l :: rest =>
    let (a, b) := splitSepAux isSep rest
    (l :: a, b)

/-- Comma-separated list values: split, strip, drop empties. -/
def splitCommaClean (v : Line) : List Line :=
  ((v.splitOn ',').map stripChars).filter (fun x => ¬ x.isEmpty)

/-- Accumulator of the feature metadata loop (`parser.py` lines
112-131). -/
structure FeatMetaAcc where
  desc_lines : List Line
  description : Line
  milestone : Option Line
  labels : List Line
  assignees : List Line

def emptyFeatMeta : FeatMetaAcc := ⟨[], [], none, [], []⟩

/-- The key of a metadata line is normalized by deleting every `*`,
`-` and space character and lowercasing (`parser.py` line 118). -/
def normalizeFeatureKey (k : Line) : Line :=
  lowerChars (k.filter (fun c => ¬ (c = '*' ∨ c = '-' ∨ c = ' ')))

def processFeatureMetaLine (acc : FeatMetaAcc) (line : Line) : FeatMetaAcc :=
  let stripped := stripChars line
  if stripped.contains ':' then
    match splitFirst ':' stripped with
    | (_, none) => { acc with desc_lines := acc.desc_lines ++ [line] }
    | (k, some v0) =>
      let value := stripChars v0
      let keyLower := normalizeFeatureKey (stripChars k)
      if keyLower = "description".data then { acc with description := value }
      else if keyLower = "milestone".data then { acc with milestone := some value }
      else if keyLower = "labels".data then { acc with labels := splitCommaClean value }
      else if keyLower = "assignees".data then { acc with assignees := splitCommaClean value }
      else { acc with desc_lines := acc.desc_lines ++ [line] }
  else { acc with desc_lines := acc.desc_lines ++ [line] }

/-- Accumulator of the task metadata loop (`parser.py` lines 151-164):
only `labels` and `assignees`, and the key is lowercased without the
`*`/`-`/space deletion. -/
structure TaskMetaAcc where
  desc_lines : List Line
  labels : List Line
  assignees : List Line

def emptyTaskMeta : TaskMetaAcc := ⟨[], [], []⟩

def processTaskMetaLine (acc : TaskMetaAcc) (line : Line) : TaskMetaAcc :=
  let stripped := stripChars line
  if stripped.contains ':' then
    match splitFirst ':' stripped with
    | (_, none) => { acc with desc_lines := acc.desc_lines ++ [line] }
    | (k, some v0) =>
      let value := stripChars v0
      let keyLower := lowerChars (stripChars k)
      if keyLower = "labels".data then { acc with labels := splitCommaClean value }
      else if keyLower = "assignees".data then { acc with assignees := splitCommaClean value }
      else { acc with desc_lines := acc.desc_lines ++ [line] }
  else { acc with desc_lines := acc.desc_lines ++ [line] }

/-- One H4 task part (`parser.py` lines 138-172). -/
def parseTaskPart (part : Line × List Line) : Option Task :=
  let task_lines := splitNl (stripChars (joinNl (part.1 :: part.2)))
  match task_lines with
  | [] => none
  | titleLine :: bodyLines =>
    let title := stripChars titleLine
    if title.isEmpty then none
    else
      let (metaA, testsB) := splitSepOnce isTestsSepLine bodyLines
      let acc := (splitNl (stripChars (joinNl metaA))).foldl processTaskMetaLine emptyTaskMeta
      let description :=
        if acc.desc_lines ≠ [] then stripChars (joinNl acc.desc_lines) else []
      let tests :=
        match testsB with
        | none => []
        | some tl =>
          let tests_body := (splitSepOnce isTestsSepLine tl).1
          if (joinNl tests_body).isEmpty then []
          else
            ((splitNl (stripChars (joinNl tests_body))).filter
              (fun l => "- ".data.isPrefixOf (stripChars l))).map
              (fun l => (stripChars l).drop 2)
      some { title := ⟨title⟩, description := ⟨description⟩,
             labels := acc.labels.map String.mk,
             assignees := acc.assignees.map String.mk,
             tests := tests.map String.mk, completed := false }

/-- Tasks from a `**Tasks:**` bullet list (`parser.py` lines 175-181):
title-only tasks, not completed. -/
def parseTasksList (ls : List Line) : List Task :=
  (splitNl (stripChars (joinNl ls))).filterMap (fun line =>
    let stripped := stripChars line
    if "- ".data.isPrefixOf stripped then
      let t := stripChars (stripped.drop 2)
      if t.isEmpty then none
      else some { title := ⟨t⟩, description := "", labels := [], assignees := [],
                  tests := [], completed := false }
    else none)

/-- One feature part of the H3 split (`parser.py` lines 91-183). -/
def parseFeaturePart (part : List Line) : Option Feature :=
  match splitNl (stripChars (joinNl part)) with
  | [] => none
  | titleLine :: bodyLines =>
    let title := stripChars titleLine
    if title.isEmpty then none
    else
      let (featureBody, taskParts) := splitH4 bodyLines
      let (metaLines, tasksListOpt) := splitSepOnce isTasksSepLine featureBody
      let acc := (splitNl (stripChars (joinNl metaLines))).foldl
        processFeatureMetaLine emptyFeatMeta
      let description :=
        if acc.description.isEmpty ∧ acc.desc_lines ≠ [] then
          stripChars (joinNl acc.desc_lines)
        else acc.description
      let h4tasks := taskParts.filterMap parseTaskPart
      let listTasks :=
        match tasksListOpt with
        | none => []
        | some tls => parseTasksList tls
      some { title := ⟨title⟩, description := ⟨description⟩,
             milestone := acc.milestone.map String.mk,
             labels := acc.labels.map String.mk,
             assignees := acc.assignees.map String.mk,
             tasks := h4tasks ++ listTasks }

/-- The features section (`parser.py` lines 85-183): split by H3; the
text before the first H3 is dropped only when blank, otherwise it is
processed as a feature part itself. -/
def parseFeaturesSection (body : List Line) : List Feature :=
  let stripped := splitNl (stripChars (joinNl body))
  let (pre0, parts) := splitH3 stripped
  let partsAll :=
    (if (stripChars (joinNl pre0)).isEmpty then [] else [pre0]) ++
      parts.map (fun p => p.1 :: p.2)
  partsAll.filterMap parseFeaturePart

/-- `parse_markdown` (`parser.py` lines 28-186): name from a leading
`# ` heading (falling back to the file stem), description up to the
first H2, then the `## Milestones` and `## Features` sections. -/
def nameAndLines (lines0 : List Line) : Line × List Line :=
  match lines0 with
  | l :: rest =>
    if "# ".data.isPrefixOf l then (stripChars (l.drop 2), rest) else ([], l :: rest)
  | [] => ([], [])

def parse_markdown (content : String) (stem : String) : Roadmap :=
  let lines0 := splitNl (stripChars content.data)
  let nl := nameAndLines lines0
  let name := if nl.1.isEmpty then stem.data else nl.1
  let lines := nl.2
  let (pre, secs) := splitSections lines
  let description := stripChars (joinNl pre)
  let ms := secs.foldl (fun acc s =>
    if isMilestonesHeader (stripChars s.1) then acc ++ parseMilestonesSection s.2
    else acc) []
  let fs := secs.foldl (fun acc s =>
    if isMilestonesHeader (stripChars s.1) then acc
    else if isFeaturesHeader (stripChars s.1) then acc ++ parseFeaturesSection s.2
    else acc) []
  { name := ⟨name⟩, description := ⟨description⟩, milestones := ms, features := fs }

/-! ## The roadmap writer (`scaffold/parser.py` lines 225-291) -/

/-- Python `', '.join(values)`. -/
def joinComma : List String → List Char
  | [] => []
  | [s] => s.data
  | s :: rest => s.data ++ ", ".data ++ joinComma rest

/-- `- **Name** — due` line of the writer. -/
def mkMilestoneLine (m : Milestone) : List Char :=
  "- **".data ++ m.name.data ++ "**".data ++
    (match m.due_date with
     | some d => if d.isEmpty then [] else " — ".data ++ d.data
     | none => [])

/-- Lines appended for one task (`parser.py` lines 267-285). -/
def taskChunks (t : Task) : List (List Char) :=
  ["#### ".data ++ (if t.completed then "[x]".data else "[ ]".data) ++
    " ".data ++ t.title.data] ++
  (if t.description.isEmpty then [] else [t.description.data]) ++
  (if t.labels.isEmpty then [] else ["Labels: ".data ++ joinComma t.labels]) ++
  (if t.assignees.isEmpty then [] else ["Assignees: ".data ++ joinComma t.assignees]) ++
  (if t.tests.isEmpty then []
   else [[], "Tests:".data] ++ t.tests.map (fun x => " - ".data ++ x.data)) ++
  [[]]

/-- Lines appended for one feature (`parser.py` lines 254-285). -/
def featureChunks (f : Feature) : List (List Char) :=
  ["### ".data ++ f.title.data] ++
  (if f.description.isEmpty then [] else [f.description.data]) ++
  (match f.milestone with
   | some m => if m.isEmpty then [] else ["Milestone: ".data ++ m.data]
   | none => []) ++
  (if f.labels.isEmpty then [] else ["Labels: ".data ++ joinComma f.labels]) ++
  (if f.assignees.isEmpty then [] else ["Assignees: ".data ++ joinComma f.assignees]) ++
  [[]] ++
  f.tasks.flatMap taskChunks

/-- The full content list of `write_roadmap` (`parser.py` lines
235-288), joined with newlines on write. -/
def write_chunks (r : Roadmap) : List (List Char) :=
  (if r.name.isEmpty then [] else ["# ".data ++ r.name.data, []]) ++
  (if r.description.isEmpty then [] else [r.description.data, []]) ++
  (if r.milestones.isEmpty then []
   else ["## Milestones".data] ++ r.milestones.map mkMilestoneLine ++ [[]]) ++
  ["## Features".data, []] ++
  r.features.flatMap featureChunks

def write_roadmap (r : Roadmap) : String := ⟨joinNl (write_chunks r)⟩

/-! ## Claim C5 — no flat-mode fallback (corrected) -/

lemma splitSections_header_mem (ls : List Line) (h : Line) (b : List Line)
    (hmem : (h, b) ∈ (splitSections ls).2) : h ∈ ls := by
  induction ls with
  | nil => simp [splitSections] at hmem
  | cons l rest ih =>
    unfold splitSections at hmem
    dsimp only at hmem
    split at hmem
    · rcases List.mem_cons.1 hmem with he | he
      · injection he with h1 h2
        exact h1 ▸ List.mem_cons_self l rest
      · exact List.mem_cons_of_mem _ (ih he)
    · exact List.mem_cons_of_mem _ (ih hmem)

lemma features_fold_const (secs : List (Line × List Line)) (acc : List Feature)
    (h : ∀ s ∈ secs, isFeaturesHeader (stripChars s.1) = false) :
    secs.foldl (fun acc s =>
      if isMilestonesHeader (stripChars s.1) then acc
      else if isFeaturesHeader (stripChars s.1) then acc ++ parseFeaturesSection s.2
      else acc) acc = acc := by
  induction secs generalizing acc with
  | nil => rfl
  | cons s rest ih =>
    rw [List.foldl_cons]
    have hs := h s (List.mem_cons_self s rest)
    have hnext : (if isMilestonesHeader (stripChars s.1) then acc
        else if isFeaturesHeader (stripChars s.1) then acc ++ parseFeaturesSection s.2
        else acc) = acc := by
      rw [hs]
      split <;> simp
    rw [hnext]
    exact ih acc (fun x hx => h x (List.mem_cons_of_mem _ hx))

/-- Every line of a name-and-lines split comes from the input lines. -/
lemma nameAndLines_mem (ls : List Line) (x : Line)
    (hx : x ∈ (nameAndLines ls).2) : x ∈ ls := by
  unfold nameAndLines at hx
  cases ls with
  | nil => exact hx
  | cons l rest =>
    dsimp only at hx
    split at hx
    · exact List.mem_cons_of_mem _ hx
    · exact hx

/-- A line that is the `##` marker followed by whitespace only.  On
such a line the `\s+` of the source's heading regex can run across the
newline and glue the following line into the heading, the one case the
line-oriented model does not cover. -/
def isBareH2 (l : Line) : Bool :=
  match l with
  | c1 :: c2 :: rest => c1 == '#' && c2 == '#' && rest.all isPySpace
  | _ => false

/-- Guard of the feature metadata branch: the line contains a colon and
its key — with every `*`, `-` and space deleted, lowercased — is one of
`description`, `milestone`, `labels`, `assignees`. -/
def featLineIsMeta (line : Line) : Bool :=
  let stripped := stripChars line
  stripped.contains ':' &&
    (match splitFirst ':' stripped with
     | (k, some _) =>
       let kl := normalizeFeatureKey (stripChars k)
       kl == "description".data || kl == "milestone".data ||
         kl == "labels".data || kl == "assignees".data
     | (_, none) => false)

/-- Guard of the task metadata branch: the key is only lowercased, and
only `labels` and `assignees` are recognized. -/
def taskLineIsMeta (line : Line) : Bool :=
  let stripped := stripChars line
  stripped.contains ':' &&
    (match splitFirst ':' stripped with
     | (k, some _) =>
       let kl := lowerChars (stripChars k)
       kl == "labels".data || kl == "assignees".data
     | (_, none) => false)

/-- C8 (counterexample): a `.json` roadmap whose top level is a list is
returned by `parse_roadmap` unchecked — no mapping check and no error
message on the JSON path (`parser.py` lines 210-213). -/
theorem parse_roadmap_json_unchecked_counterexample :
    parse_roadmap_dispatch ".json" (Except.ok (PyVal.dict []))
      (Except.ok (PyVal.list [])) = ParseOutcome.structured (PyVal.list []) := rfl

/-- C8 (amended): on the YAML path (any suffix other than
`.md`/`.markdown`/`.json`) a non-mapping top level raises
`"Roadmap file must contain a mapping at the top level, got <type>"`
(capital R); a Markdown file whose front matter decodes to a list
raises the same message with `list`; a parse failure in `sync` exits
before the GitHub client is built, so no remote call happens; but on
`.json` files the decoded value is returned with no mapping check. -/
theorem parse_roadmap_rejects_non_mapping (suffix : String) (v : PyVal)
    (j : Except String PyVal)
    (h1 : ¬((⟨lowerChars suffix.data⟩ : String) = ".md" ∨
      (⟨lowerChars suffix.data⟩ : String) = ".markdown"))
    (h2 : ¬(⟨lowerChars suffix.data⟩ : String) = ".json")
    (hv : ∀ entries, v ≠ PyVal.dict entries) :
    parse_roadmap_dispatch suffix (Except.ok v) j =
      ParseOutcome.failed
        ("Roadmap file must contain a mapping at the top level, got " ++ pyTypeName v) ∧
    (∀ msg (parsed : ParseOutcome), parsed = ParseOutcome.failed msg →
      PipeEvent.remoteConnect ∉ syncPipelinePrefix parsed ∧
      PipeEvent.remoteFetchTitles ∉ syncPipelinePrefix parsed) ∧
    (∀ (entries : List PyVal) (j2 : Except String PyVal),
      parse_roadmap_dispatch ".md" (Except.ok (PyVal.list entries)) j2 =
        ParseOutcome.failed
          "Roadmap file must contain a mapping at the top level, got list") ∧
    (∀ (y : Except String PyVal) (w : PyVal),
      parse_roadmap_dispatch ".json" y (Except.ok w) = ParseOutcome.structured w) := by
  refine ⟨?_, ?_, ?_, ?_⟩
  · unfold parse_roadmap_dispatch
    rw [if_neg h1, if_neg h2]
    cases v with
    | dict entries => exact absurd rfl (hv entries)
    | list _ => rfl
    | str _ => rfl
    | num _ => rfl
    | noneVal => rfl
  · intro msg parsed hp
    subst hp
    constructor <;> intro hmem <;>
      rcases List.mem_singleton.1 hmem with h <;> cases h
  · intro entries j2
    rfl
  · intro y w
    unfold parse_roadmap_dispatch
    rw [if_neg (by decide), if_pos (by decide)]

/-- Witness for `parse_roadmap_rejects_non_mapping` at a `.yaml` file
decoding to a list. -/
theorem parse_roadmap_rejects_non_mapping_witness :
    parse_roadmap_dispatch ".yaml" (Except.ok (PyVal.list []))
        (Except.ok PyVal.noneVal) =
      ParseOutcome.failed
        ("Roadmap file must contain a mapping at the top level, got " ++
          pyTypeName (PyVal.list [])) :=
  (parse_roadmap_rejects_non_mapping ".yaml" (PyVal.list [])
    (Except.ok PyVal.noneVal) (by decide) (by decide)
    (fun entries h => PyVal.noConfusion h)).1

/-! ## Claim C4 — Markdown round trip (corrected)

The writer renders a task's completed state as a checkbox prefix on the
H4 heading, but the parser does not strip that prefix when reading the
file back: task titles are recovered with `"[ ] "` / `"[x] "`
prepended. -/

lemma splitNl_ne_nil (l : List Char) : splitNl l ≠ [] := by
  induction l with
  | nil => simp [splitNl]
  | cons c rest ih =>
    unfold splitNl
    split
    · simp
    · cases h : splitNl rest with
      | nil => exact absurd h ih
      | cons a as => simp

lemma splitNl_cons (c : Char) (rest : List Char) :
    splitNl (c :: rest) =
      if c = '\n' then [] :: splitNl rest
      else
        match splitNl rest with
        | l :: ls => (c :: l) :: ls
        | [] => [[c]] := rfl

lemma splitNl_append_newline (a b : List Char) :
    splitNl (a ++ '\n' :: b) = splitNl a ++ splitNl b := by
  induction a with
  | nil =>
    show splitNl ('\n' :: b) = splitNl [] ++ splitNl b
    rw [splitNl_cons, if_pos rfl]
    rfl
  | cons c rest ih =>
    by_cases hc : c = '\n'
    · subst hc
      show splitNl ('\n' :: (rest ++ '\n' :: b)) = splitNl ('\n' :: rest) ++ splitNl b
      rw [splitNl_cons, splitNl_cons, if_pos rfl, if_pos rfl, ih]
      rfl
    · show splitNl (c :: (rest ++ '\n' :: b)) = splitNl (c :: rest) ++ splitNl b
      rw [splitNl_cons, splitNl_cons, if_neg hc, if_neg hc, ih]
      cases h : splitNl rest with
      | nil => exact absurd h (splitNl_ne_nil rest)
      | cons x xs =>
        rfl

lemma splitNl_no_newline (l : List Char) (h : ¬ l.contains '\n' = true) :
    splitNl l = [l] := by
  induction l with
  | nil => rfl
  | cons c rest ih =>
    have hc : ¬ c = '\n' := fun hcon => h (by
      subst hcon
      exact List.elem_eq_true_of_mem (List.mem_cons_self _ _))
    have hrest : ¬ rest.contains '\n' = true := fun hcon => h
      (List.elem_eq_true_of_mem
        (List.mem_cons_of_mem _ (List.mem_of_elem_eq_true hcon)))
    unfold splitNl
    rw [if_neg hc, ih hrest]

lemma joinNl_cons (x : Line) (ls : List Line) (h : ls ≠ []) :
    joinNl (x :: ls) = x ++ '\n' :: joinNl ls := by
  cases ls with
  | nil => exact absurd rfl h
  | cons y ys => rfl

lemma splitNl_joinNl (ls : List Line) (h : ls ≠ []) :
    splitNl (joinNl ls) = ls.flatMap splitNl := by
  induction ls with
  | nil => exact absurd rfl h
  | cons x rest ih =>
    cases rest with
    | nil => simp [joinNl, joinLinesChars]
    | cons y ys =>
      rw [joinNl_cons x (y :: ys) (by simp), splitNl_append_newline,
        ih (by simp)]
      simp

lemma stripChars_cons_space (c : Char) (l : List Char) (h : isPySpace c = true) :
    stripChars (c :: l) = stripChars l := by
  unfold stripChars
  rw [List.dropWhile_cons_of_pos h]

lemma stripChars_concat_space (l : List Char) (c : Char) (h : isPySpace c = true) :
    stripChars (l ++ [c]) = stripChars l := by
  rw [stripChars_eq_rdrop, stripChars_eq_rdrop, List.dropWhile_append]
  split
  · rename_i he
    have h0 : l.dropWhile isPySpace = [] := by
      simpa using he
    rw [h0, List.dropWhile_cons_of_pos h]
    rfl
  · exact List.rdropWhile_concat_pos _ _ _ h

lemma stripChars_eq_self (l : List Char) (h1 : l ≠ [])
    (h2 : isPySpace (l.head h1) = false)
    (h3 : isPySpace (l.getLast h1) = false) :
    stripChars l = l := by
  rw [stripChars_eq_rdrop]
  cases l with
  | nil => exact absurd rfl h1
  | cons c rest =>
    rw [List.dropWhile_cons_of_neg (by simp_all)]
    exact List.rdropWhile_eq_self_iff.2 (fun hl => by simp_all)

lemma strip_fixed_drop (l : List Char) (h : stripChars l = l) :
    l.dropWhile isPySpace = l := by
  rw [stripChars_eq_rdrop] at h
  have h1 : (List.rdropWhile isPySpace (l.dropWhile isPySpace)).length ≤
      (l.dropWhile isPySpace).length := by
    have h0 := (List.dropWhile_sublist
      (l := (l.dropWhile isPySpace).reverse) (p := isPySpace)).length_le
    simpa [List.rdropWhile] using h0
  have h2 : (l.dropWhile isPySpace).length ≤ l.length :=
    (List.dropWhile_sublist _).length_le
  have h3 : l.length = (List.rdropWhile isPySpace (l.dropWhile isPySpace)).length := by
    rw [h]
  exact (List.dropWhile_sublist _).eq_of_length (by omega)

lemma strip_fixed_rdrop (l : List Char) (h : stripChars l = l) :
    List.rdropWhile isPySpace l = l := by
  have hd := strip_fixed_drop l h
  rw [stripChars_eq_rdrop, hd] at h
  exact h

lemma strip_fixed_head (c : Char) (x : List Char) (h : stripChars (c :: x) = c :: x) :
    isPySpace c = false := by
  cases hb : isPySpace c with
  | false => rfl
  | true =>
    have hd := strip_fixed_drop _ h
    rw [List.dropWhile_cons_of_pos hb] at hd
    have h2 := (List.dropWhile_sublist (p := isPySpace) (l := x)).length_le
    have h3 := congrArg List.length hd
    rw [List.length_cons] at h3
    omega

lemma strip_fixed_getLast (l : List Char) (d : Char) (h : stripChars l = l)
    (hl : l.getLast? = some d) : isPySpace d = false := by
  cases hb : isPySpace d with
  | false => rfl
  | true =>
    have hr := strip_fixed_rdrop l h
    rw [List.rdropWhile_eq_self_iff] at hr
    have hne : l ≠ [] := by
      intro he
      rw [he] at hl
      simp at hl
    have h2 := hr hne
    rw [List.getLast?_eq_getLast l hne] at hl
    have h3 := Option.some.inj hl
    rw [h3, hb] at h2
    exact (h2 rfl).elim

lemma stripChars_fix_of_ends (c : Char) (x : List Char) (d : Char)
    (hc : isPySpace c = false) (hl : (c :: x).getLast? = some d)
    (hd : isPySpace d = false) : stripChars (c :: x) = c :: x := by
  rw [stripChars_eq_rdrop, List.dropWhile_cons_of_neg (by simp [hc])]
  rw [List.rdropWhile_eq_self_iff]
  intro hne
  rw [List.getLast?_eq_getLast _ hne] at hl
  rw [Option.some.inj hl, hd]
  exact fun hcon => Bool.noConfusion hcon

lemma ne_nil_of_getLast (l : List Char) (a : Char) (h : l.getLast? = some a) :
    l ≠ [] := by
  intro he
  rw [he] at h
  simp at h

lemma joinNl_concat_blank (ls : List Line) (h : ls ≠ []) :
    joinNl (ls ++ [[]]) = joinNl ls ++ ['\n'] := by
  induction ls with
  | nil => exact absurd rfl h
  | cons x rest ih =>
    cases rest with
    | nil => rfl
    | cons y ys =>
      rw [List.cons_append, joinNl_cons x ((y :: ys) ++ [[]]) (by simp),
        joinNl_cons x (y :: ys) (by simp), ih (by simp)]
      simp

lemma joinNl_getLast (ls : List Line) (y : Line) (d : Char)
    (h : ls.getLast? = some y) (hy : y.getLast? = some d) :
    (joinNl ls).getLast? = some d := by
  induction ls with
  | nil => simp at h
  | cons x rest ih =>
    cases rest with
    | nil =>
      simp only [List.getLast?_singleton, Option.some.injEq] at h
      subst h
      simpa [joinNl, joinLinesChars] using hy
    | cons z zs =>
      rw [joinNl_cons x (z :: zs) (by simp)]
      have h2 : (z :: zs).getLast? = some y := by
        rw [← h, List.getLast?_cons_cons]
      have h3 := ih h2
      have hne : joinNl (z :: zs) ≠ [] := by
        intro he
        rw [he] at h3
        simp at h3
      have h5 : List.getLast? (x ++ '\n' :: joinNl (z :: zs)) =
          List.getLast? ('\n' :: joinNl (z :: zs)) :=
        List.getLast?_append_of_ne_nil x (by simp)
      have h6 : List.getLast? (['\n'] ++ joinNl (z :: zs)) =
          List.getLast? (joinNl (z :: zs)) :=
        List.getLast?_append_of_ne_nil ['\n'] hne
      rw [h5, show ('\n' :: joinNl (z :: zs)) = ['\n'] ++ joinNl (z :: zs) from rfl,
        h6]
      exact h3

lemma flatMap_splitNl_id (ls : List Line) (hnl : ∀ l ∈ ls, '\n' ∉ l) :
    ls.flatMap splitNl = ls := by
  induction ls with
  | nil => rfl
  | cons x rest ih =>
    rw [List.flatMap_cons,
      splitNl_no_newline x (fun hcon => hnl x (List.mem_cons_self x rest)
        (List.mem_of_elem_eq_true hcon)),
      ih (fun l hl => hnl l (List.mem_cons_of_mem x hl))]
    rfl

lemma splitNl_joinNl_id (ls : List Line) (h : ls ≠ [])
    (hnl : ∀ l ∈ ls, '\n' ∉ l) : splitNl (joinNl ls) = ls := by
  rw [splitNl_joinNl ls h]
  exact flatMap_splitNl_id ls hnl

lemma strip_join (c : Char) (x : Line) (rest : List Line) (y : Line) (d : Char)
    (hc : isPySpace c = false)
    (hlast : ((c :: x) :: rest).getLast? = some y)
    (hyd : y.getLast? = some d) (hd : isPySpace d = false)
    (hnl : ∀ l ∈ (c :: x) :: rest, '\n' ∉ l) :
    splitNl (stripChars (joinNl ((c :: x) :: rest))) = (c :: x) :: rest := by
  have hj : (joinNl ((c :: x) :: rest)).getLast? = some d :=
    joinNl_getLast _ _ _ hlast hyd
  have hcons : ∃ t, joinNl ((c :: x) :: rest) = c :: t := by
    cases rest with
    | nil => exact ⟨x, rfl⟩
    | cons z zs =>
      refine ⟨x ++ '\n' :: joinNl (z :: zs), ?_⟩
      rw [joinNl_cons _ _ (by simp)]
      rfl
  obtain ⟨t, ht⟩ := hcons
  rw [ht] at hj
  rw [ht, stripChars_fix_of_ends c t d hc hj hd, ← ht]
  exact splitNl_joinNl_id _ (by simp) hnl

lemma strip_join_blank (c : Char) (x : Line) (rest : List Line) (y : Line) (d : Char)
    (hc : isPySpace c = false)
    (hlast : ((c :: x) :: rest).getLast? = some y)
    (hyd : y.getLast? = some d) (hd : isPySpace d = false)
    (hnl : ∀ l ∈ (c :: x) :: rest, '\n' ∉ l) :
    splitNl (stripChars (joinNl (((c :: x) :: rest) ++ [[]]))) = (c :: x) :: rest := by
  rw [joinNl_concat_blank _ (by simp), stripChars_concat_space _ _ (by decide)]
  exact strip_join c x rest y d hc hlast hyd hd hnl

lemma strip_cons_blank (ls : List Line) (h : ls ≠ []) :
    stripChars (joinNl ([] :: ls)) = stripChars (joinNl ls) := by
  rw [joinNl_cons [] ls h]
  exact stripChars_cons_space _ _ (by decide)

/-! ### Clean roadmaps: the fragment on which the writer inverts

A string is clean when it is nonempty, already stripped, and contains no
newline; a clean roadmap has a clean name, an empty description, clean
milestone names that carry no `*` at either end and no `—` (the writer's
bold markers and due-date separator), and features/tasks that carry only
clean titles (plus the task's completed flag). -/

def cleanStr (s : String) : Prop :=
  s.isEmpty = false ∧ s.data ≠ [] ∧ stripChars s.data = s.data ∧ '\n' ∉ s.data

instance (s : String) : Decidable (cleanStr s) :=
  inferInstanceAs (Decidable (_ ∧ _ ∧ _ ∧ _))

def cleanDue : Option String → Prop
  | none => True
  | some d => cleanStr d

instance (o : Option String) : Decidable (cleanDue o) :=
  match o with
  | none => isTrue trivial
  | some d => inferInstanceAs (Decidable (cleanStr d))

def CleanMilestone (m : Milestone) : Prop :=
  cleanStr m.name ∧ m.name.data.head? ≠ some '*' ∧
  m.name.data.getLast? ≠ some '*' ∧ '—' ∉ m.name.data ∧ cleanDue m.due_date

instance (m : Milestone) : Decidable (CleanMilestone m) :=
  inferInstanceAs (Decidable (_ ∧ _ ∧ _ ∧ _ ∧ _))

def CleanTask (t : Task) : Prop :=
  cleanStr t.title ∧ t.description = "" ∧ t.labels = [] ∧ t.assignees = [] ∧
  t.tests = []

instance (t : Task) : Decidable (CleanTask t) :=
  inferInstanceAs (Decidable (_ ∧ _ ∧ _ ∧ _ ∧ _))

def CleanFeature (f : Feature) : Prop :=
  cleanStr f.title ∧ f.description = "" ∧ f.milestone = none ∧ f.labels = [] ∧
  f.assignees = [] ∧ ∀ t ∈ f.tasks, CleanTask t

instance (f : Feature) : Decidable (CleanFeature f) :=
  inferInstanceAs (Decidable (_ ∧ _ ∧ _ ∧ _ ∧ _ ∧ _))

def CleanRoadmap (r : Roadmap) : Prop :=
  cleanStr r.name ∧ r.description = "" ∧ (∀ m ∈ r.milestones, CleanMilestone m) ∧
  ∀ f ∈ r.features, CleanFeature f

instance (r : Roadmap) : Decidable (CleanRoadmap r) :=
  inferInstanceAs (Decidable (_ ∧ _ ∧ _ ∧ _))

lemma cleanStr_getLast (s : String) (h : cleanStr s) :
    ∃ d, s.data.getLast? = some d ∧ isPySpace d = false := by
  obtain ⟨hie, hne, hfix, hnl⟩ := h
  have h1 := List.getLast?_eq_getLast s.data hne
  exact ⟨_, h1, strip_fixed_getLast _ _ hfix h1⟩

lemma cleanStr_head (s : String) (h : cleanStr s) :
    ∃ c t, s.data = c :: t ∧ isPySpace c = false := by
  obtain ⟨hie, hne, hfix, hnl⟩ := h
  cases hs : s.data with
  | nil => exact absurd hs hne
  | cons c t =>
    refine ⟨c, t, rfl, ?_⟩
    rw [hs] at hfix
    exact strip_fixed_head c t hfix

/-! ### `splitFirst` and `stripChar` facts for the milestone list rows -/

lemma splitFirst_not_mem (sep : Char) (l : List Char) (h : sep ∉ l) :
    splitFirst sep l = (l, none) := by
  induction l with
  | nil => rfl
  | cons c rest ih =>
    have hc : ¬ (c == sep) = true := by
      simp only [beq_iff_eq]
      intro he
      exact h (he ▸ List.mem_cons_self c rest)
    have hr : sep ∉ rest := fun hm => h (List.mem_cons_of_mem c hm)
    unfold splitFirst
    rw [if_neg hc, ih hr]

lemma splitFirst_append (sep : Char) (a b : List Char) (h : sep ∉ a) :
    splitFirst sep (a ++ sep :: b) = (a, some b) := by
  induction a with
  | nil =>
    show splitFirst sep (sep :: b) = ([], some b)
    unfold splitFirst
    rw [if_pos (by simp)]
  | cons c rest ih =>
    have hc : ¬ (c == sep) = true := by
      simp only [beq_iff_eq]
      intro he
      exact h (he ▸ List.mem_cons_self c rest)
    show splitFirst sep (c :: (rest ++ sep :: b)) = (c :: rest, some b)
    unfold splitFirst
    rw [if_neg hc, ih (fun hm => h (List.mem_cons_of_mem c hm))]

lemma stripChar_eq_rdrop (c : Char) (l : List Char) :
    stripChar c l = List.rdropWhile (· == c) (l.dropWhile (· == c)) := rfl

lemma stripChar_wrap (name : List Char) (hne : name ≠ [])
    (hhd : name.head? ≠ some '*') (hlast : name.getLast? ≠ some '*') :
    stripChar '*' ('*' :: '*' :: (name ++ ['*', '*'])) = name := by
  rw [stripChar_eq_rdrop]
  cases name with
  | nil => exact absurd rfl hne
  | cons n0 ntl =>
    have h0 : ¬ (n0 == '*') = true := by
      simp only [beq_iff_eq]
      intro he
      exact hhd (by simp [he])
    rw [List.dropWhile_cons_of_pos (by simp), List.dropWhile_cons_of_pos (by simp),
      List.cons_append]
    have h1 : List.dropWhile (fun x => x == '*') (n0 :: (ntl ++ ['*', '*'])) =
        n0 :: (ntl ++ ['*', '*']) := List.dropWhile_cons_of_neg h0
    rw [h1]
    have hassoc : n0 :: (ntl ++ ['*', '*']) = (((n0 :: ntl) ++ ['*']) ++ ['*']) := by
      simp
    rw [hassoc, List.rdropWhile_concat_pos _ _ _ (by simp),
      List.rdropWhile_concat_pos _ _ _ (by simp), List.rdropWhile_eq_self_iff]
    intro h
    simp only [beq_iff_eq]
    intro he
    exact hlast (by rw [List.getLast?_eq_getLast _ h, he])

/-! ### The writer's milestone line parses back to the same milestone -/

/-- The due-date tail of `mkMilestoneLine`. -/
def dueTail : Option String → List Char
  | some d => if d.isEmpty then [] else " — ".data ++ d.data
  | none => []

lemma mkMilestoneLine_eq (m : Milestone) :
    mkMilestoneLine m =
      "- **".data ++ m.name.data ++ "**".data ++ dueTail m.due_date := rfl

lemma mkMilestoneLine_cons (m : Milestone) :
    mkMilestoneLine m =
      '-' :: ' ' :: '*' :: '*' ::
        (m.name.data ++ ('*' :: '*' :: dueTail m.due_date)) := by
  rw [mkMilestoneLine_eq,
    show "- **".data = ['-', ' ', '*', '*'] from rfl,
    show "**".data = ['*', '*'] from rfl]
  simp

lemma dueTail_some (d : String) (h : d.isEmpty = false) :
    dueTail (some d) = ' ' :: '—' :: ' ' :: d.data := by
  show (if d.isEmpty = true then [] else " — ".data ++ d.data) = _
  rw [if_neg (by simp [h])]
  rfl

lemma mkMilestoneLine_getLast (m : Milestone) (h : CleanMilestone m) :
    ∃ d, (mkMilestoneLine m).getLast? = some d ∧ isPySpace d = false := by
  obtain ⟨hcn, hhd, hlast, hdash, hdue⟩ := h
  rw [mkMilestoneLine_eq]
  cases hd : m.due_date with
  | none =>
    refine ⟨'*', ?_, by decide⟩
    rw [show dueTail none = [] from rfl, List.append_nil,
      show "- **".data ++ m.name.data ++ "**".data =
        ("- **".data ++ m.name.data ++ ['*']) ++ ['*'] by simp,
      List.getLast?_concat]
  | some dd =>
    rw [hd] at hdue
    obtain ⟨c, hdd, hddns⟩ := cleanStr_getLast dd hdue
    refine ⟨c, ?_, hddns⟩
    rw [dueTail_some dd hdue.1]
    have h5 : List.getLast? (("- **".data ++ m.name.data ++ "**".data) ++
        (' ' :: '—' :: ' ' :: dd.data)) =
        List.getLast? (' ' :: '—' :: ' ' :: dd.data) :=
      List.getLast?_append_of_ne_nil _ (by simp)
    have h6 : List.getLast? ([' ', '—', ' '] ++ dd.data) =
        List.getLast? dd.data :=
      List.getLast?_append_of_ne_nil _ hdue.2.1
    rw [h5, show (' ' :: '—' :: ' ' :: dd.data) = [' ', '—', ' '] ++ dd.data
      from rfl, h6, hdd]

lemma mkMilestoneLine_core_getLast (m : Milestone) (h : CleanMilestone m) :
    ∃ d, (m.name.data ++ ('*' :: '*' :: dueTail m.due_date)).getLast? = some d ∧
      isPySpace d = false := by
  obtain ⟨d, hdl, hdns⟩ := mkMilestoneLine_getLast m h
  refine ⟨d, ?_, hdns⟩
  rw [mkMilestoneLine_cons] at hdl
  have h1 : List.getLast? (['-', ' ', '*', '*'] ++
      (m.name.data ++ ('*' :: '*' :: dueTail m.due_date))) =
      List.getLast? (m.name.data ++ ('*' :: '*' :: dueTail m.due_date)) :=
    List.getLast?_append_of_ne_nil _ (by simp)
  rw [← h1]
  exact hdl

lemma mkMilestoneLine_strip (m : Milestone) (h : CleanMilestone m) :
    stripChars (mkMilestoneLine m) = mkMilestoneLine m := by
  obtain ⟨d, hdl, hdns⟩ := mkMilestoneLine_getLast m h
  rw [mkMilestoneLine_cons] at hdl ⊢
  exact stripChars_fix_of_ends _ _ _ (by decide) hdl hdns

lemma mkMilestoneLine_no_nl (m : Milestone) (h : CleanMilestone m) :
    '\n' ∉ mkMilestoneLine m := by
  obtain ⟨⟨hie, hne, hfix, hnl⟩, hhd, hlast, hdash, hdue⟩ := h
  rw [mkMilestoneLine_eq]
  intro hm
  rcases List.mem_append.1 hm with hm1 | hmdue
  · rcases List.mem_append.1 hm1 with hm2 | hm3
    · rcases List.mem_append.1 hm2 with hm4 | hm5
      · exact absurd hm4 (by decide)
      · exact hnl hm5
    · exact absurd hm3 (by decide)
  · cases hd : m.due_date with
    | none =>
      rw [hd] at hmdue
      simp [dueTail] at hmdue
    | some dd =>
      rw [hd] at hmdue
      rw [hd] at hdue
      rw [dueTail_some dd hdue.1] at hmdue
      rcases List.mem_cons.1 hmdue with he | hmdue
      · exact absurd he (by decide)
      rcases List.mem_cons.1 hmdue with he | hmdue
      · exact absurd he (by decide)
      rcases List.mem_cons.1 hmdue with he | hmdue
      · exact absurd he (by decide)
      exact hdue.2.2.2 hmdue

lemma parseListRows_cons_eq (line : Line) (rest : List Line) :
    parseListRows (line :: rest) =
      (if "- ".data.isPrefixOf (stripChars line) then
        match splitFirst '—' (stripChars ((stripChars line).drop 2)) with
        | (namePart, duePart) =>
          { name := ⟨stripChar '*' (stripChars namePart)⟩,
            due_date :=
              match duePart with
              | none => none
              | some d => if d.isEmpty then none else some ⟨stripChars d⟩ } ::
            parseListRows rest
      else parseListRows rest) := rfl

lemma parseListRows_cons (m : Milestone) (rest : List Line)
    (h : CleanMilestone m) :
    parseListRows (mkMilestoneLine m :: rest) = m :: parseListRows rest := by
  have hstrip := mkMilestoneLine_strip m h
  obtain ⟨d0, hcore, hd0⟩ := mkMilestoneLine_core_getLast m h
  have hX : (m.name.data ++ ('*' :: '*' :: dueTail m.due_date)) ≠ [] := by simp
  have hcfix : stripChars ('*' :: '*' ::
      (m.name.data ++ ('*' :: '*' :: dueTail m.due_date))) =
      '*' :: '*' :: (m.name.data ++ ('*' :: '*' :: dueTail m.due_date)) := by
    refine stripChars_fix_of_ends _ _ d0 (by decide) ?_ hd0
    have h2 : List.getLast? (['*', '*'] ++
        (m.name.data ++ ('*' :: '*' :: dueTail m.due_date))) =
        List.getLast? (m.name.data ++ ('*' :: '*' :: dueTail m.due_date)) :=
      List.getLast?_append_of_ne_nil _ hX
    rw [show ('*' :: '*' ::
        (m.name.data ++ ('*' :: '*' :: dueTail m.due_date))) =
        ['*', '*'] ++ (m.name.data ++ ('*' :: '*' :: dueTail m.due_date)) from rfl,
      h2, hcore]
  obtain ⟨⟨hie, hne, hfix, hnl⟩, hhd, hlast, hdash, hdue⟩ := h
  rw [parseListRows_cons_eq, hstrip]
  have hpre : ("- ".data.isPrefixOf (mkMilestoneLine m)) = true := by
    rw [mkMilestoneLine_cons]
    rfl
  rw [if_pos hpre]
  have hdrop : (mkMilestoneLine m).drop 2 =
      '*' :: '*' :: (m.name.data ++ ('*' :: '*' :: dueTail m.due_date)) := by
    rw [mkMilestoneLine_cons]
    rfl
  rw [hdrop, hcfix]
  cases hd : m.due_date with
  | none =>
    rw [show dueTail none = [] from rfl]
    have hmem : '—' ∉ ('*' :: '*' :: (m.name.data ++ ['*', '*'])) := by
      intro hm2
      rcases List.mem_cons.1 hm2 with he | hm2
      · exact absurd he (by decide)
      rcases List.mem_cons.1 hm2 with he | hm2
      · exact absurd he (by decide)
      rcases List.mem_append.1 hm2 with h3 | h3
      · exact hdash h3
      · exact absurd h3 (by decide)
    rw [splitFirst_not_mem _ _ hmem]
    dsimp only
    have hfix2 : stripChars ('*' :: '*' :: (m.name.data ++ ['*', '*'])) =
        '*' :: '*' :: (m.name.data ++ ['*', '*']) := by
      have h4 := hcfix
      rw [hd, show dueTail none = [] from rfl] at h4
      exact h4
    rw [hfix2, stripChar_wrap m.name.data hne hhd hlast]
    have hmeq : ({ name := ⟨m.name.data⟩, due_date := none } : Milestone) = m := by
      rw [show (⟨m.name.data⟩ : String) = m.name from rfl, ← hd]
    rw [hmeq]
  | some dd =>
    have hdue2 : cleanStr dd := by
      have h9 := hdue
      rw [hd] at h9
      exact h9
    rw [dueTail_some dd hdue2.1]
    have hshape : ('*' :: '*' ::
        (m.name.data ++ ('*' :: '*' :: (' ' :: '—' :: ' ' :: dd.data)))) =
        ('*' :: '*' :: (m.name.data ++ ['*', '*', ' '])) ++ '—' :: (' ' :: dd.data) := by
      simp
    have hmem : '—' ∉ ('*' :: '*' :: (m.name.data ++ ['*', '*', ' '])) := by
      intro hm2
      rcases List.mem_cons.1 hm2 with he | hm2
      · exact absurd he (by decide)
      rcases List.mem_cons.1 hm2 with he | hm2
      · exact absurd he (by decide)
      rcases List.mem_append.1 hm2 with h3 | h3
      · exact hdash h3
      · exact absurd h3 (by decide)
    rw [hshape, splitFirst_append _ _ _ hmem]
    dsimp only
    have hfix3 : stripChars ('*' :: '*' :: (m.name.data ++ ['*', '*'])) =
        '*' :: '*' :: (m.name.data ++ ['*', '*']) := by
      refine stripChars_fix_of_ends _ _ '*' (by decide) ?_ (by decide)
      rw [show ('*' :: '*' :: (m.name.data ++ ['*', '*'])) =
        ('*' :: '*' :: (m.name.data ++ ['*'])) ++ ['*'] by simp, List.getLast?_concat]
    have hstrips : stripChars ('*' :: '*' :: (m.name.data ++ ['*', '*', ' '])) =
        '*' :: '*' :: (m.name.data ++ ['*', '*']) := by
      rw [show ('*' :: '*' :: (m.name.data ++ ['*', '*', ' '])) =
        ('*' :: '*' :: (m.name.data ++ ['*', '*'])) ++ [' '] by simp,
        stripChars_concat_space _ _ (by decide), hfix3]
    rw [hstrips, stripChar_wrap m.name.data hne hhd hlast,
      if_neg (show ¬ ((' ' :: dd.data).isEmpty = true) by simp),
      stripChars_cons_space _ _ (by decide), hdue2.2.2.1]
    have hmeq : ({ name := ⟨m.name.data⟩, due_date := some ⟨dd.data⟩ } : Milestone)
        = m := by
      rw [show (⟨m.name.data⟩ : String) = m.name from rfl,
        show (⟨dd.data⟩ : String) = dd from rfl, ← hd]
    rw [hmeq]

lemma startsWithChar_cons (c a : Char) (t : List Char) :
    startsWithChar c (a :: t) = (a == c) := rfl

lemma getLast_map_own {α β : Type} (f : α → β) (l : List α) :
    (l.map f).getLast? = l.getLast?.map f := by
  induction l with
  | nil => rfl
  | cons a rest ih =>
    cases rest with
    | nil => rfl
    | cons b bs =>
      rw [List.map_cons, List.map_cons, List.getLast?_cons_cons, ← List.map_cons,
        ih, List.getLast?_cons_cons]

lemma parseListRows_map (ms : List Milestone) (h : ∀ m ∈ ms, CleanMilestone m) :
    parseListRows (ms.map mkMilestoneLine) = ms := by
  induction ms with
  | nil => rfl
  | cons m rest ih =>
    rw [List.map_cons, parseListRows_cons m _ (h m (List.mem_cons_self _ _)),
      ih (fun x hx => h x (List.mem_cons_of_mem _ hx))]

lemma parseMilestonesSection_eq (ms : List Milestone) (hne : ms ≠ [])
    (h : ∀ m ∈ ms, CleanMilestone m) :
    parseMilestonesSection (ms.map mkMilestoneLine ++ [[]]) = ms := by
  cases ms with
  | nil => exact absurd rfl hne
  | cons m0 ms' =>
    have hlastm : (m0 :: ms').getLast? = some ((m0 :: ms').getLast (by simp)) :=
      List.getLast?_eq_getLast _ (by simp)
    have hlastclean : CleanMilestone ((m0 :: ms').getLast (by simp)) :=
      h _ (List.getLast_mem _)
    obtain ⟨d, hdl, hdns⟩ := mkMilestoneLine_getLast _ hlastclean
    have hmaplast : ((m0 :: ms').map mkMilestoneLine).getLast? =
        some (mkMilestoneLine ((m0 :: ms').getLast (by simp))) := by
      rw [getLast_map_own, hlastm]
      rfl
    have hnl : ∀ l ∈ (m0 :: ms').map mkMilestoneLine, '\n' ∉ l := by
      intro l hl
      obtain ⟨m, hm, rfl⟩ := List.mem_map.1 hl
      exact mkMilestoneLine_no_nl m (h m hm)
    have hm0 := mkMilestoneLine_cons m0
    have hlines : splitNl (stripChars
        (joinNl ((m0 :: ms').map mkMilestoneLine ++ [[]]))) =
        (m0 :: ms').map mkMilestoneLine := by
      rw [List.map_cons, hm0] at hmaplast hnl ⊢
      exact strip_join_blank _ _ _ _ _ (by decide) hmaplast hdl hdns hnl
    have hany : ¬ (((m0 :: ms').map mkMilestoneLine).any
        (fun l => startsWithChar '|' (stripChars l)) = true) := by
      intro hcon
      obtain ⟨l, hl, hpl⟩ := List.any_eq_true.1 hcon
      obtain ⟨m, hm, rfl⟩ := List.mem_map.1 hl
      rw [mkMilestoneLine_strip m (h m hm), mkMilestoneLine_cons,
        startsWithChar_cons] at hpl
      exact absurd hpl (by decide)
    simp only [parseMilestonesSection]
    rw [hlines, if_neg hany]
    exact parseListRows_map _ h

/-! ### The writer's task and feature lines -/

/-- The checkbox-prefixed title the parser recovers for a written task:
the writer's checkbox is not stripped on re-parse. -/
def cbTitle (t : Task) : List Char :=
  (if t.completed then "[x]".data else "[ ]".data) ++ ' ' :: t.title.data

/-- The full H4 heading line the writer emits for a task. -/
def h4line (t : Task) : List Char := "#### ".data ++ cbTitle t

/-- The H3 heading line the writer emits for a feature. -/
def h3lineF (f : Feature) : List Char := "### ".data ++ f.title.data

/-- What a written task parses back to. -/
def reparsedTask (t : Task) : Task :=
  { title := ⟨cbTitle t⟩, description := "", labels := [], assignees := [],
    tests := [], completed := false }

/-- What a written feature parses back to. -/
def reparsedFeature (f : Feature) : Feature :=
  { title := f.title, description := "", milestone := none, labels := [],
    assignees := [], tasks := f.tasks.map reparsedTask }

lemma cbTitle_cons (t : Task) :
    cbTitle t =
      '[' :: (if t.completed then 'x' else ' ') :: ']' :: ' ' :: t.title.data := by
  unfold cbTitle
  cases t.completed <;> rfl

lemma cbTitle_getLast (t : Task) (h : CleanTask t) :
    ∃ d, (cbTitle t).getLast? = some d ∧ isPySpace d = false := by
  obtain ⟨d, hdl, hdns⟩ := cleanStr_getLast t.title h.1
  refine ⟨d, ?_, hdns⟩
  rw [cbTitle_cons]
  have h5 : List.getLast? (['[', (if t.completed then 'x' else ' '), ']', ' '] ++
      t.title.data) = List.getLast? t.title.data :=
    List.getLast?_append_of_ne_nil _ h.1.2.1
  rw [show ('[' :: (if t.completed then 'x' else ' ') :: ']' :: ' ' :: t.title.data) =
    ['[', (if t.completed then 'x' else ' '), ']', ' '] ++ t.title.data from rfl,
    h5, hdl]

lemma cbTitle_strip (t : Task) (h : CleanTask t) :
    stripChars (cbTitle t) = cbTitle t := by
  obtain ⟨d, hdl, hdns⟩ := cbTitle_getLast t h
  rw [cbTitle_cons] at hdl ⊢
  exact stripChars_fix_of_ends _ _ _ (by decide) hdl hdns

lemma cbTitle_no_nl (t : Task) (h : CleanTask t) : '\n' ∉ cbTitle t := by
  rw [cbTitle_cons]
  intro hm
  rcases List.mem_cons.1 hm with he | hm
  · exact absurd he (by decide)
  rcases List.mem_cons.1 hm with he | hm
  · have hne : '\n' ≠ (if t.completed then 'x' else ' ') := by
      cases t.completed <;> decide
    exact hne he
  rcases List.mem_cons.1 hm with he | hm
  · exact absurd he (by decide)
  rcases List.mem_cons.1 hm with he | hm
  · exact absurd he (by decide)
  exact h.1.2.2.2 hm

lemma h4line_cons (t : Task) :
    h4line t = '#' :: '#' :: '#' :: '#' :: ' ' :: cbTitle t := rfl

lemma h4line_getLast (t : Task) (h : CleanTask t) :
    ∃ d, (h4line t).getLast? = some d ∧ isPySpace d = false := by
  obtain ⟨d, hdl, hdns⟩ := cbTitle_getLast t h
  refine ⟨d, ?_, hdns⟩
  have hne : cbTitle t ≠ [] := by
    rw [cbTitle_cons]
    simp
  have h5 : List.getLast? (['#', '#', '#', '#', ' '] ++ cbTitle t) =
      List.getLast? (cbTitle t) := List.getLast?_append_of_ne_nil _ hne
  rw [h4line_cons,
    show ('#' :: '#' :: '#' :: '#' :: ' ' :: cbTitle t) =
      ['#', '#', '#', '#', ' '] ++ cbTitle t from rfl, h5, hdl]

lemma h4line_strip (t : Task) (h : CleanTask t) :
    stripChars (h4line t) = h4line t := by
  obtain ⟨d, hdl, hdns⟩ := h4line_getLast t h
  rw [h4line_cons] at hdl ⊢
  exact stripChars_fix_of_ends _ _ _ (by decide) hdl hdns

lemma h4line_no_nl (t : Task) (h : CleanTask t) : '\n' ∉ h4line t := by
  rw [h4line_cons]
  intro hm
  rcases List.mem_cons.1 hm with he | hm
  · exact absurd he (by decide)
  rcases List.mem_cons.1 hm with he | hm
  · exact absurd he (by decide)
  rcases List.mem_cons.1 hm with he | hm
  · exact absurd he (by decide)
  rcases List.mem_cons.1 hm with he | hm
  · exact absurd he (by decide)
  rcases List.mem_cons.1 hm with he | hm
  · exact absurd he (by decide)
  exact cbTitle_no_nl t h hm

lemma h3lineF_cons (f : Feature) :
    h3lineF f = '#' :: '#' :: '#' :: ' ' :: f.title.data := rfl

lemma h3lineF_getLast (f : Feature) (h : CleanFeature f) :
    ∃ d, (h3lineF f).getLast? = some d ∧ isPySpace d = false := by
  obtain ⟨d, hdl, hdns⟩ := cleanStr_getLast f.title h.1
  refine ⟨d, ?_, hdns⟩
  have h5 : List.getLast? (['#', '#', '#', ' '] ++ f.title.data) =
      List.getLast? f.title.data := List.getLast?_append_of_ne_nil _ h.1.2.1
  rw [h3lineF_cons,
    show ('#' :: '#' :: '#' :: ' ' :: f.title.data) =
      ['#', '#', '#', ' '] ++ f.title.data from rfl, h5, hdl]

lemma h3lineF_strip (f : Feature) (h : CleanFeature f) :
    stripChars (h3lineF f) = h3lineF f := by
  obtain ⟨d, hdl, hdns⟩ := h3lineF_getLast f h
  rw [h3lineF_cons] at hdl ⊢
  exact stripChars_fix_of_ends _ _ _ (by decide) hdl hdns

lemma h3lineF_no_nl (f : Feature) (h : CleanFeature f) : '\n' ∉ h3lineF f := by
  rw [h3lineF_cons]
  intro hm
  rcases List.mem_cons.1 hm with he | hm
  · exact absurd he (by decide)
  rcases List.mem_cons.1 hm with he | hm
  · exact absurd he (by decide)
  rcases List.mem_cons.1 hm with he | hm
  · exact absurd he (by decide)
  rcases List.mem_cons.1 hm with he | hm
  · exact absurd he (by decide)
  exact h.1.2.2.2 hm

lemma isH2Header_h4line (t : Task) : isH2Header (h4line t) = false := by
  rw [h4line_cons]
  rfl

lemma isH3Start_h4line (t : Task) : isH3Start (h4line t) = none := by
  rw [h4line_cons]
  rfl

lemma isH2Header_h3lineF (f : Feature) : isH2Header (h3lineF f) = false := by
  rw [h3lineF_cons]
  rfl

lemma isH2Header_mkMilestoneLine (m : Milestone) :
    isH2Header (mkMilestoneLine m) = false := by
  rw [mkMilestoneLine_cons]
  rfl

lemma isH4Start_h4line (t : Task) (h : CleanTask t) :
    isH4Start (h4line t) = some (cbTitle t) := by
  rw [h4line_cons]
  simp only [isH4Start]
  rw [if_pos (by decide), List.dropWhile_cons_of_pos (by decide),
    strip_fixed_drop _ (cbTitle_strip t h)]

lemma isH3Start_h3lineF (f : Feature) (h : CleanFeature f) :
    isH3Start (h3lineF f) = some f.title.data := by
  rw [h3lineF_cons]
  simp only [isH3Start]
  rw [if_pos (by decide), List.dropWhile_cons_of_pos (by decide),
    strip_fixed_drop _ h.1.2.2.1]

lemma isH4Start_h3lineF (f : Feature) (h : CleanFeature f) :
    isH4Start (h3lineF f) = none := by
  obtain ⟨c, tl, hct, hc⟩ := cleanStr_head f.title h.1
  rw [h3lineF_cons, hct]
  rfl

/-! ### One-step and append equations for the sectionizers -/

lemma splitSections_cons (l : Line) (rest : List Line) :
    splitSections (l :: rest) =
      if isH2Header l then
        ([], (l, (splitSections rest).1) :: (splitSections rest).2)
      else (l :: (splitSections rest).1, (splitSections rest).2) := by
  rcases hps : splitSections rest with ⟨pre, secs⟩
  unfold splitSections
  rw [hps]

lemma splitSections_append (a b : List Line) (h : ∀ l ∈ a, isH2Header l = false) :
    splitSections (a ++ b) = (a ++ (splitSections b).1, (splitSections b).2) := by
  induction a with
  | nil => simp
  | cons l a2 ih =>
    rw [List.cons_append, splitSections_cons,
      if_neg (by simp [h l (List.mem_cons_self _ _)]),
      ih (fun x hx => h x (List.mem_cons_of_mem _ hx))]
    simp

lemma splitH3_cons (l : Line) (rest : List Line) :
    splitH3 (l :: rest) =
      match isH3Start l with
      | some t => ([], (t, (splitH3 rest).1) :: (splitH3 rest).2)
      | none => (l :: (splitH3 rest).1, (splitH3 rest).2) := by
  rcases hps : splitH3 rest with ⟨pre, parts⟩
  unfold splitH3
  rw [hps]

lemma splitH3_append (a b : List Line) (h : ∀ l ∈ a, isH3Start l = none) :
    splitH3 (a ++ b) = (a ++ (splitH3 b).1, (splitH3 b).2) := by
  induction a with
  | nil => simp
  | cons l a2 ih =>
    rw [List.cons_append, splitH3_cons, h l (List.mem_cons_self _ _),
      ih (fun x hx => h x (List.mem_cons_of_mem _ hx))]
    simp

lemma splitH3_no_delim (ls : List Line) (h : ∀ l ∈ ls, isH3Start l = none) :
    splitH3 ls = (ls, []) := by
  have h1 := splitH3_append ls [] h
  simpa [splitH3] using h1

lemma splitH4Aux_cons (l : Line) (rest : List Line) :
    splitH4Aux (l :: rest) =
      match isH4Start l with
      | some t => ([], (t, (splitH4Aux rest).1) :: (splitH4Aux rest).2)
      | none => (l :: (splitH4Aux rest).1, (splitH4Aux rest).2) := by
  rcases hps : splitH4Aux rest with ⟨pre, parts⟩
  unfold splitH4Aux
  rw [hps]

/-! ### A written task part parses back to its checkbox-titled task -/

lemma parseTaskPart_blank (t : Line) (body : List Line) :
    parseTaskPart (t, body ++ [[]]) = parseTaskPart (t, body) := by
  unfold parseTaskPart
  have h1 : joinNl ((t, body ++ [[]]).1 :: (t, body ++ [[]]).2) =
      joinNl ((t, body).1 :: (t, body).2) ++ ['\n'] := by
    show joinNl (t :: (body ++ [[]])) = joinNl (t :: body) ++ ['\n']
    rw [show t :: (body ++ [[]]) = (t :: body) ++ [[]] from rfl,
      joinNl_concat_blank _ (by simp)]
  rw [h1, stripChars_concat_space _ _ (by decide)]

lemma parseFeaturePart_blank (p : List Line) (hne : p ≠ []) :
    parseFeaturePart (p ++ [[]]) = parseFeaturePart p := by
  unfold parseFeaturePart
  rw [joinNl_concat_blank p hne, stripChars_concat_space _ _ (by decide)]

lemma parseTaskPart_clean (t : Task) (h : CleanTask t) :
    parseTaskPart (cbTitle t, ([] : List Line)) = some (reparsedTask t) := by
  unfold parseTaskPart
  have hlines : splitNl (stripChars (joinNl ((cbTitle t, ([] : List Line)).1 ::
      (cbTitle t, ([] : List Line)).2))) = [cbTitle t] := by
    show splitNl (stripChars (joinNl [cbTitle t])) = [cbTitle t]
    rw [show joinNl [cbTitle t] = cbTitle t from rfl, cbTitle_strip t h]
    exact splitNl_no_newline _
      (fun hc => cbTitle_no_nl t h (List.mem_of_elem_eq_true hc))
  rw [hlines]
  dsimp only
  have hie : (cbTitle t).isEmpty = false := by
    rw [cbTitle_cons]
    rfl
  rw [cbTitle_strip t h, if_neg (by simp [hie])]
  rfl

/-! ### The block of lines a feature contributes to the written file -/

/-- The task lines of a feature body without the final blank line. -/
def pairsCore : List Task → List Line
  | [] => []
  | [t] => [h4line t]
  | t :: ts => h4line t :: [] :: pairsCore ts

/-- The H4 parts the sectionizer recovers from `pairsCore`. -/
def h4parts : List Task → List (Line × List Line)
  | [] => []
  | [t] => [(cbTitle t, [])]
  | t :: ts => (cbTitle t, [[]]) :: h4parts ts

/-- All lines a feature contributes (trailing blank included). -/
def featLinesFull (f : Feature) : List Line :=
  h3lineF f :: [] :: f.tasks.flatMap (fun t => [h4line t, []])

/-- The feature block of the whole written file, without the file's
final blank line. -/
def featsCore : List Feature → List Line
  | [] => []
  | [f] =>
    h3lineF f ::
      (match f.tasks with
       | [] => []
       | _ :: _ => [] :: pairsCore f.tasks)
  | f :: fs => featLinesFull f ++ featsCore fs

/-- The body lines of one parsed feature part, as `splitH3` returns
them for the last feature of the file. -/
def featTailLast (f : Feature) : List Line :=
  match f.tasks with
  | [] => []
  | _ :: _ => [] :: pairsCore f.tasks

lemma flatMap_pairs_eq (ts : List Task) (h : ts ≠ []) :
    ts.flatMap (fun t => [h4line t, []]) = pairsCore ts ++ [[]] := by
  induction ts with
  | nil => exact absurd rfl h
  | cons t rest ih =>
    cases rest with
    | nil => rfl
    | cons u us =>
      rw [List.flatMap_cons, ih (by simp),
        show pairsCore (t :: u :: us) = h4line t :: [] :: pairsCore (u :: us)
          from rfl]
      rfl

lemma pairsCore_getLast (ts : List Task) (hne : ts ≠ [])
    (h : ∀ t ∈ ts, CleanTask t) :
    ∃ y d, (pairsCore ts).getLast? = some y ∧ y.getLast? = some d ∧
      isPySpace d = false := by
  induction ts with
  | nil => exact absurd rfl hne
  | cons t rest ih =>
    cases rest with
    | nil =>
      obtain ⟨d, hdl, hdns⟩ := h4line_getLast t (h t (List.mem_cons_self _ _))
      exact ⟨h4line t, d, by rw [show pairsCore [t] = [h4line t] from rfl,
        List.getLast?_singleton], hdl, hdns⟩
    | cons u us =>
      obtain ⟨y, d, hy, hyd, hdns⟩ := ih (by simp)
        (fun x hx => h x (List.mem_cons_of_mem _ hx))
      refine ⟨y, d, ?_, hyd, hdns⟩
      rw [show pairsCore (t :: u :: us) = h4line t :: [] :: pairsCore (u :: us)
        from rfl]
      have hne2 : pairsCore (u :: us) ≠ [] := by
        intro he
        rw [he] at hy
        simp at hy
      have h5 : List.getLast? ([h4line t, []] ++ pairsCore (u :: us)) =
          List.getLast? (pairsCore (u :: us)) :=
        List.getLast?_append_of_ne_nil _ hne2
      rw [show (h4line t :: [] :: pairsCore (u :: us)) =
        [h4line t, []] ++ pairsCore (u :: us) from rfl, h5, hy]

lemma pairsCore_no_nl (ts : List Task) (h : ∀ t ∈ ts, CleanTask t) :
    ∀ l ∈ pairsCore ts, '\n' ∉ l := by
  induction ts with
  | nil => simp [pairsCore]
  | cons t rest ih =>
    cases rest with
    | nil =>
      intro l hl
      rw [show pairsCore [t] = [h4line t] from rfl] at hl
      rcases List.mem_cons.1 hl with he | hl
      · rw [he]
        exact h4line_no_nl t (h t (List.mem_cons_self _ _))
      · simp at hl
    | cons u us =>
      intro l hl
      rw [show pairsCore (t :: u :: us) = h4line t :: [] :: pairsCore (u :: us)
        from rfl] at hl
      rcases List.mem_cons.1 hl with he | hl
      · rw [he]
        exact h4line_no_nl t (h t (List.mem_cons_self _ _))
      rcases List.mem_cons.1 hl with he | hl
      · rw [he]
        simp
      · exact ih (fun x hx => h x (List.mem_cons_of_mem _ hx)) l hl

lemma pairsCore_no_h3 (ts : List Task) :
    ∀ l ∈ pairsCore ts, isH3Start l = none := by
  induction ts with
  | nil => simp [pairsCore]
  | cons t rest ih =>
    cases rest with
    | nil =>
      intro l hl
      rw [show pairsCore [t] = [h4line t] from rfl] at hl
      rcases List.mem_cons.1 hl with he | hl
      · rw [he]
        exact isH3Start_h4line t
      · simp at hl
    | cons u us =>
      intro l hl
      rw [show pairsCore (t :: u :: us) = h4line t :: [] :: pairsCore (u :: us)
        from rfl] at hl
      rcases List.mem_cons.1 hl with he | hl
      · rw [he]
        exact isH3Start_h4line t
      rcases List.mem_cons.1 hl with he | hl
      · rw [he]
        rfl
      · exact ih l hl

lemma splitH4Aux_pairsCore (ts : List Task) (hne : ts ≠ [])
    (h : ∀ t ∈ ts, CleanTask t) :
    splitH4Aux (pairsCore ts) = ([], h4parts ts) := by
  induction ts with
  | nil => exact absurd rfl hne
  | cons t rest ih =>
    cases rest with
    | nil =>
      rw [show pairsCore [t] = [h4line t] from rfl, splitH4Aux_cons,
        isH4Start_h4line t (h t (List.mem_cons_self _ _))]
      rfl
    | cons u us =>
      rw [show pairsCore (t :: u :: us) = h4line t :: [] :: pairsCore (u :: us)
        from rfl, splitH4Aux_cons,
        isH4Start_h4line t (h t (List.mem_cons_self _ _)), splitH4Aux_cons,
        show isH4Start [] = none from rfl,
        ih (by simp) (fun x hx => h x (List.mem_cons_of_mem _ hx))]
      rfl

lemma filterMap_h4parts (ts : List Task) (h : ∀ t ∈ ts, CleanTask t) :
    (h4parts ts).filterMap parseTaskPart = ts.map reparsedTask := by
  induction ts with
  | nil => rfl
  | cons t rest ih =>
    cases rest with
    | nil =>
      rw [show h4parts [t] = [(cbTitle t, ([] : List Line))] from rfl]
      rw [List.filterMap_cons,
        parseTaskPart_clean t (h t (List.mem_cons_self _ _))]
      rfl
    | cons u us =>
      rw [show h4parts (t :: u :: us) = (cbTitle t, [[]]) :: h4parts (u :: us)
        from rfl, List.filterMap_cons,
        show ((cbTitle t, [[]]) : Line × List Line) =
          (cbTitle t, ([] : List Line) ++ [[]]) from rfl,
        parseTaskPart_blank, parseTaskPart_clean t (h t (List.mem_cons_self _ _)),
        ih (fun x hx => h x (List.mem_cons_of_mem _ hx))]
      rfl

lemma splitH4_cons (l : Line) (rest : List Line) :
    splitH4 (l :: rest) = (l :: (splitH4Aux rest).1, (splitH4Aux rest).2) := by
  rcases hps : splitH4Aux rest with ⟨pre, parts⟩
  unfold splitH4
  dsimp only
  rw [hps]

lemma parseFeaturePart_clean (f : Feature) (h : CleanFeature f) :
    parseFeaturePart (f.title.data :: featTailLast f) = some (reparsedFeature f) := by
  obtain ⟨c0, tl0, hct, hc0⟩ := cleanStr_head f.title h.1
  cases hts : f.tasks with
  | nil =>
    have htail : featTailLast f = [] := by
      unfold featTailLast
      rw [hts]
    rw [htail]
    unfold parseFeaturePart
    have hlines : splitNl (stripChars (joinNl [f.title.data])) = [f.title.data] := by
      rw [show joinNl [f.title.data] = f.title.data from rfl, h.1.2.2.1]
      exact splitNl_no_newline _
        (fun hcon => h.1.2.2.2 (List.mem_of_elem_eq_true hcon))
    rw [hlines]
    dsimp only
    rw [h.1.2.2.1, if_neg (by simp [hct])]
    unfold reparsedFeature
    rw [hts]
    rfl
  | cons t0 ts0 =>
    have hclean_ts : ∀ t ∈ (t0 :: ts0), CleanTask t := by
      rw [← hts]
      exact h.2.2.2.2.2
    have htail : featTailLast f = [] :: pairsCore (t0 :: ts0) := by
      unfold featTailLast
      rw [hts]
    rw [htail]
    unfold parseFeaturePart
    have hlines : splitNl (stripChars
        (joinNl (f.title.data :: [] :: pairsCore (t0 :: ts0)))) =
        f.title.data :: [] :: pairsCore (t0 :: ts0) := by
      obtain ⟨y, d, hy, hyd, hdns⟩ := pairsCore_getLast (t0 :: ts0) (by simp)
        hclean_ts
      rw [hct]
      refine strip_join c0 tl0 ([] :: pairsCore (t0 :: ts0)) y d hc0 ?_ hyd hdns ?_
      · have hne2 : pairsCore (t0 :: ts0) ≠ [] := by
          intro he
          rw [he] at hy
          simp at hy
        have h5 : List.getLast? ([c0 :: tl0, []] ++ pairsCore (t0 :: ts0)) =
            List.getLast? (pairsCore (t0 :: ts0)) :=
          List.getLast?_append_of_ne_nil _ hne2
        rw [show ((c0 :: tl0) :: [] :: pairsCore (t0 :: ts0)) =
          [c0 :: tl0, []] ++ pairsCore (t0 :: ts0) from rfl, h5, hy]
      · intro l hl
        rcases List.mem_cons.1 hl with he | hl
        · rw [he, ← hct]
          exact h.1.2.2.2
        rcases List.mem_cons.1 hl with he | hl
        · rw [he]
          simp
        · exact pairsCore_no_nl _ hclean_ts l hl
    rw [hlines]
    dsimp only
    rw [h.1.2.2.1, if_neg (by simp [hct]), splitH4_cons,
      splitH4Aux_pairsCore (t0 :: ts0) (by simp) hclean_ts]
    dsimp only
    rw [filterMap_h4parts (t0 :: ts0) hclean_ts,
      show splitSepOnce isTasksSepLine [[]] = ([[]], none) from rfl]
    dsimp only
    rw [List.append_nil]
    unfold reparsedFeature
    rw [hts]
    rfl

/-! ### The features block of the whole written file -/

/-- The H3 parts the sectionizer recovers from `featsCore`. -/
def h3parts : List Feature → List (Line × List Line)
  | [] => []
  | [f] => [(f.title.data, featTailLast f)]
  | f :: fs =>
    (f.title.data, [] :: f.tasks.flatMap (fun t => [h4line t, []])) :: h3parts fs

lemma featsCore_single (f : Feature) :
    featsCore [f] = h3lineF f :: featTailLast f := rfl

lemma featsCore_cons2 (f0 f1 : Feature) (fs : List Feature) :
    featsCore (f0 :: f1 :: fs) = featLinesFull f0 ++ featsCore (f1 :: fs) := rfl

lemma featsCore_ne_nil (fs : List Feature) (h : fs ≠ []) : featsCore fs ≠ [] := by
  cases fs with
  | nil => exact absurd rfl h
  | cons f0 fs' =>
    cases fs' with
    | nil =>
      rw [featsCore_single]
      simp
    | cons f1 fs2 =>
      rw [featsCore_cons2]
      simp [featLinesFull]

lemma featsCore_head (f0 : Feature) (fs' : List Feature) :
    ∃ t, featsCore (f0 :: fs') =
      ('#' :: '#' :: '#' :: ' ' :: f0.title.data) :: t := by
  cases fs' with
  | nil => exact ⟨_, rfl⟩
  | cons f1 fs2 => exact ⟨_, rfl⟩

lemma pairsCore_mem (ts : List Task) (l : Line) (hl : l ∈ pairsCore ts) :
    l = [] ∨ ∃ t ∈ ts, l = h4line t := by
  induction ts with
  | nil => simp [pairsCore] at hl
  | cons t rest ih =>
    cases rest with
    | nil =>
      rw [show pairsCore [t] = [h4line t] from rfl] at hl
      rcases List.mem_cons.1 hl with he | hl
      · exact Or.inr ⟨t, List.mem_cons_self _ _, he⟩
      · simp at hl
    | cons u us =>
      rw [show pairsCore (t :: u :: us) = h4line t :: [] :: pairsCore (u :: us)
        from rfl] at hl
      rcases List.mem_cons.1 hl with he | hl
      · exact Or.inr ⟨t, List.mem_cons_self _ _, he⟩
      rcases List.mem_cons.1 hl with he | hl
      · exact Or.inl he
      · rcases ih hl with he | ⟨x, hx, he⟩
        · exact Or.inl he
        · exact Or.inr ⟨x, List.mem_cons_of_mem _ hx, he⟩

lemma featTailLast_mem (f : Feature) (l : Line) (hl : l ∈ featTailLast f) :
    l = [] ∨ ∃ t ∈ f.tasks, l = h4line t := by
  unfold featTailLast at hl
  cases hts : f.tasks with
  | nil =>
    rw [hts] at hl
    simp at hl
  | cons t0 ts0 =>
    rw [hts] at hl
    rcases List.mem_cons.1 hl with he | hl
    · exact Or.inl he
    · rcases pairsCore_mem _ _ hl with he | ⟨x, hx, he⟩
      · exact Or.inl he
      · exact Or.inr ⟨x, hts ▸ hx, he⟩

lemma featLinesFull_mem (f : Feature) (l : Line) (hl : l ∈ featLinesFull f) :
    l = [] ∨ l = h3lineF f ∨ ∃ t ∈ f.tasks, l = h4line t := by
  unfold featLinesFull at hl
  rcases List.mem_cons.1 hl with he | hl
  · exact Or.inr (Or.inl he)
  rcases List.mem_cons.1 hl with he | hl
  · exact Or.inl he
  · obtain ⟨t, ht, hmem⟩ := List.mem_flatMap.1 hl
    rcases List.mem_cons.1 hmem with he | hmem
    · exact Or.inr (Or.inr ⟨t, ht, he⟩)
    rcases List.mem_cons.1 hmem with he | hmem
    · exact Or.inl he
    · simp at hmem

lemma featsCore_mem (fs : List Feature) (l : Line) (hl : l ∈ featsCore fs) :
    l = [] ∨ (∃ f ∈ fs, l = h3lineF f) ∨
      ∃ f ∈ fs, ∃ t ∈ f.tasks, l = h4line t := by
  induction fs with
  | nil => simp [featsCore] at hl
  | cons f0 fs' ih =>
    cases fs' with
    | nil =>
      rw [featsCore_single] at hl
      rcases List.mem_cons.1 hl with he | hl
      · exact Or.inr (Or.inl ⟨f0, List.mem_cons_self _ _, he⟩)
      · rcases featTailLast_mem f0 l hl with he | ⟨t, ht, he⟩
        · exact Or.inl he
        · exact Or.inr (Or.inr ⟨f0, List.mem_cons_self _ _, t, ht, he⟩)
    | cons f1 fs2 =>
      rw [featsCore_cons2] at hl
      rcases List.mem_append.1 hl with hl | hl
      · rcases featLinesFull_mem f0 l hl with he | he | ⟨t, ht, he⟩
        · exact Or.inl he
        · exact Or.inr (Or.inl ⟨f0, List.mem_cons_self _ _, he⟩)
        · exact Or.inr (Or.inr ⟨f0, List.mem_cons_self _ _, t, ht, he⟩)
      · rcases ih hl with he | ⟨f, hf, he⟩ | ⟨f, hf, t, ht, he⟩
        · exact Or.inl he
        · exact Or.inr (Or.inl ⟨f, List.mem_cons_of_mem _ hf, he⟩)
        · exact Or.inr (Or.inr ⟨f, List.mem_cons_of_mem _ hf, t, ht, he⟩)

lemma featsCore_no_nl (fs : List Feature) (h : ∀ f ∈ fs, CleanFeature f) :
    ∀ l ∈ featsCore fs, '\n' ∉ l := by
  intro l hl
  rcases featsCore_mem fs l hl with he | ⟨f, hf, he⟩ | ⟨f, hf, t, ht, he⟩
  · rw [he]
    simp
  · rw [he]
    exact h3lineF_no_nl f (h f hf)
  · rw [he]
    exact h4line_no_nl t ((h f hf).2.2.2.2.2 t ht)

lemma featsCore_no_h2 (fs : List Feature) :
    ∀ l ∈ featsCore fs, isH2Header l = false := by
  intro l hl
  rcases featsCore_mem fs l hl with he | ⟨f, hf, he⟩ | ⟨f, hf, t, ht, he⟩
  · rw [he]
    rfl
  · rw [he]
    exact isH2Header_h3lineF f
  · rw [he]
    exact isH2Header_h4line t

lemma featsCore_getLast (fs : List Feature) (hne : fs ≠ [])
    (h : ∀ f ∈ fs, CleanFeature f) :
    ∃ y d, (featsCore fs).getLast? = some y ∧ y.getLast? = some d ∧
      isPySpace d = false := by
  induction fs with
  | nil => exact absurd rfl hne
  | cons f0 fs' ih =>
    cases fs' with
    | nil =>
      rw [featsCore_single]
      cases hts : f0.tasks with
      | nil =>
        have htail : featTailLast f0 = [] := by
          unfold featTailLast
          rw [hts]
        obtain ⟨d, hdl, hdns⟩ := h3lineF_getLast f0 (h f0 (List.mem_cons_self _ _))
        exact ⟨h3lineF f0, d, by rw [htail, List.getLast?_singleton], hdl, hdns⟩
      | cons t0 ts0 =>
        have htail : featTailLast f0 = [] :: pairsCore (t0 :: ts0) := by
          unfold featTailLast
          rw [hts]
        have hclean_ts : ∀ t ∈ (t0 :: ts0), CleanTask t := by
          rw [← hts]
          exact (h f0 (List.mem_cons_self _ _)).2.2.2.2.2
        obtain ⟨y, d, hy, hyd, hdns⟩ :=
          pairsCore_getLast (t0 :: ts0) (by simp) hclean_ts
        refine ⟨y, d, ?_, hyd, hdns⟩
        have hne2 : pairsCore (t0 :: ts0) ≠ [] := by
          intro he
          rw [he] at hy
          simp at hy
        have h5 : List.getLast? ([h3lineF f0, []] ++ pairsCore (t0 :: ts0)) =
            List.getLast? (pairsCore (t0 :: ts0)) :=
          List.getLast?_append_of_ne_nil _ hne2
        rw [htail, show (h3lineF f0 :: [] :: pairsCore (t0 :: ts0)) =
          [h3lineF f0, []] ++ pairsCore (t0 :: ts0) from rfl, h5, hy]
    | cons f1 fs2 =>
      obtain ⟨y, d, hy, hyd, hdns⟩ := ih (by simp)
        (fun x hx => h x (List.mem_cons_of_mem _ hx))
      refine ⟨y, d, ?_, hyd, hdns⟩
      rw [featsCore_cons2,
        List.getLast?_append_of_ne_nil _ (featsCore_ne_nil _ (by simp)), hy]

lemma featTailLast_no_h3 (f : Feature) :
    ∀ l ∈ featTailLast f, isH3Start l = none := by
  intro l hl
  rcases featTailLast_mem f l hl with he | ⟨t, ht, he⟩
  · rw [he]
    rfl
  · rw [he]
    exact isH3Start_h4line t

lemma splitH3_featsCore (fs : List Feature) (hne : fs ≠ [])
    (h : ∀ f ∈ fs, CleanFeature f) :
    splitH3 (featsCore fs) = ([], h3parts fs) := by
  induction fs with
  | nil => exact absurd rfl hne
  | cons f0 fs' ih =>
    cases fs' with
    | nil =>
      rw [featsCore_single, splitH3_cons,
        isH3Start_h3lineF f0 (h f0 (List.mem_cons_self _ _)),
        splitH3_no_delim (featTailLast f0) (featTailLast_no_h3 f0)]
      rfl
    | cons f1 fs2 =>
      have htail_no_h3 : ∀ l ∈ ([] :: f0.tasks.flatMap (fun t => [h4line t, []])),
          isH3Start l = none := by
        intro l hl
        rcases List.mem_cons.1 hl with he | hl
        · rw [he]
          rfl
        · obtain ⟨t, ht, hmem⟩ := List.mem_flatMap.1 hl
          rcases List.mem_cons.1 hmem with he | hmem
          · rw [he]
            exact isH3Start_h4line t
          rcases List.mem_cons.1 hmem with he | hmem
          · rw [he]
            rfl
          · simp at hmem
      rw [featsCore_cons2,
        show featLinesFull f0 =
          h3lineF f0 :: ([] :: f0.tasks.flatMap (fun t => [h4line t, []]))
          from rfl,
        List.cons_append, splitH3_cons,
        isH3Start_h3lineF f0 (h f0 (List.mem_cons_self _ _)),
        splitH3_append _ _ htail_no_h3,
        ih (by simp) (fun x hx => h x (List.mem_cons_of_mem _ hx))]
      dsimp only
      rw [List.append_nil]
      rfl

lemma filterMap_h3parts (fs : List Feature) (h : ∀ f ∈ fs, CleanFeature f) :
    ((h3parts fs).map (fun p => p.1 :: p.2)).filterMap parseFeaturePart =
      fs.map reparsedFeature := by
  induction fs with
  | nil => rfl
  | cons f0 fs' ih =>
    cases fs' with
    | nil =>
      rw [show h3parts [f0] = [(f0.title.data, featTailLast f0)] from rfl,
        List.map_cons, List.filterMap_cons]
      dsimp only
      rw [parseFeaturePart_clean f0 (h f0 (List.mem_cons_self _ _))]
      rfl
    | cons f1 fs2 =>
      rw [show h3parts (f0 :: f1 :: fs2) =
        (f0.title.data, [] :: f0.tasks.flatMap (fun t => [h4line t, []])) ::
          h3parts (f1 :: fs2) from rfl, List.map_cons, List.filterMap_cons]
      dsimp only
      have hpp : parseFeaturePart
          (f0.title.data :: [] :: f0.tasks.flatMap (fun t => [h4line t, []])) =
          some (reparsedFeature f0) := by
        cases hts : f0.tasks with
        | nil =>
          have htail : featTailLast f0 = [] := by
            unfold featTailLast
            rw [hts]
          rw [show (f0.title.data :: [] ::
              ([] : List Task).flatMap (fun t => [h4line t, []])) =
              [f0.title.data] ++ [[]] from rfl,
            parseFeaturePart_blank _ (by simp)]
          have h2 := parseFeaturePart_clean f0 (h f0 (List.mem_cons_self _ _))
          rw [htail] at h2
          exact h2
        | cons t0 ts0 =>
          have htail : featTailLast f0 = [] :: pairsCore (t0 :: ts0) := by
            unfold featTailLast
            rw [hts]
          rw [flatMap_pairs_eq (t0 :: ts0) (by simp),
            show (f0.title.data :: [] :: (pairsCore (t0 :: ts0) ++ [[]])) =
              (f0.title.data :: [] :: pairsCore (t0 :: ts0)) ++ [[]] by simp,
            parseFeaturePart_blank _ (by simp)]
          have h2 := parseFeaturePart_clean f0 (h f0 (List.mem_cons_self _ _))
          rw [htail] at h2
          exact h2
      rw [hpp, ih (fun x hx => h x (List.mem_cons_of_mem _ hx))]
      rfl

/-- The features-section body the H2 split hands to the features
parser. -/
def featsBody (fs : List Feature) : List Line :=
  match fs with
  | [] => []
  | _ :: _ => [] :: featsCore fs

lemma parseFeaturesSection_eq (fs : List Feature)
    (h : ∀ f ∈ fs, CleanFeature f) :
    parseFeaturesSection (featsBody fs) = fs.map reparsedFeature := by
  cases fs with
  | nil => rfl
  | cons f0 fs' =>
    show parseFeaturesSection ([] :: featsCore (f0 :: fs')) = _
    have hstr : splitNl (stripChars (joinNl ([] :: featsCore (f0 :: fs')))) =
        featsCore (f0 :: fs') := by
      rw [strip_cons_blank _ (featsCore_ne_nil _ (by simp))]
      obtain ⟨tl, htl⟩ := featsCore_head f0 fs'
      obtain ⟨y, d, hy, hyd, hdns⟩ := featsCore_getLast (f0 :: fs') (by simp) h
      have hnl := featsCore_no_nl (f0 :: fs') h
      rw [htl] at hy hnl ⊢
      exact strip_join _ _ _ y d (by decide) hy hyd hdns hnl
    unfold parseFeaturesSection
    rw [hstr]
    dsimp only
    rw [splitH3_featsCore (f0 :: fs') (by simp) h]
    dsimp only
    rw [if_pos (show (stripChars (joinNl [])).isEmpty = true from rfl),
      List.nil_append]
    exact filterMap_h3parts (f0 :: fs') h

/-! ### The whole written file -/

/-- The milestones block of the written file. -/
def msBlock (ms : List Milestone) : List Line :=
  if ms.isEmpty then []
  else "## Milestones".data :: (ms.map mkMilestoneLine ++ [[]])

/-- The written file's lines without the final blank line. -/
def docCore (r : Roadmap) : List Line :=
  ("# ".data ++ r.name.data) :: [] ::
    (msBlock r.milestones ++ "## Features".data :: featsBody r.features)

lemma taskChunks_clean (t : Task) (h : CleanTask t) :
    taskChunks t = [h4line t, []] := by
  obtain ⟨hc, hd, hl, ha, hte⟩ := h
  unfold taskChunks h4line cbTitle
  rw [hd, hl, ha, hte]
  cases t.completed <;> rfl

lemma featureChunks_clean (f : Feature) (h : CleanFeature f) :
    featureChunks f = h3lineF f :: [] :: f.tasks.flatMap taskChunks := by
  obtain ⟨hc, hd, hm, hl, ha, hts⟩ := h
  unfold featureChunks
  rw [hd, hm, hl, ha]
  rfl

lemma flatMap_taskChunks (ts : List Task) (h : ∀ t ∈ ts, CleanTask t) :
    ts.flatMap taskChunks = ts.flatMap (fun t => [h4line t, []]) := by
  induction ts with
  | nil => rfl
  | cons t rest ih =>
    rw [List.flatMap_cons, List.flatMap_cons,
      taskChunks_clean t (h t (List.mem_cons_self _ _)),
      ih (fun x hx => h x (List.mem_cons_of_mem _ hx))]

lemma flatMap_featLines (fs : List Feature) (h : ∀ f ∈ fs, CleanFeature f) :
    fs.flatMap featureChunks = fs.flatMap featLinesFull := by
  induction fs with
  | nil => rfl
  | cons f rest ih =>
    rw [List.flatMap_cons, List.flatMap_cons,
      featureChunks_clean f (h f (List.mem_cons_self _ _)),
      flatMap_taskChunks f.tasks (h f (List.mem_cons_self _ _)).2.2.2.2.2,
      ih (fun x hx => h x (List.mem_cons_of_mem _ hx))]
    rfl

lemma flatMap_featLinesFull_eq (fs : List Feature) (hne : fs ≠ []) :
    fs.flatMap featLinesFull = featsCore fs ++ [[]] := by
  induction fs with
  | nil => exact absurd rfl hne
  | cons f0 fs' ih =>
    cases fs' with
    | nil =>
      rw [List.flatMap_cons, List.flatMap_nil, List.append_nil, featsCore_single]
      cases hts : f0.tasks with
      | nil =>
        have htail : featTailLast f0 = [] := by
          unfold featTailLast
          rw [hts]
        rw [htail]
        unfold featLinesFull
        rw [hts]
        rfl
      | cons t0 ts0 =>
        have htail : featTailLast f0 = [] :: pairsCore (t0 :: ts0) := by
          unfold featTailLast
          rw [hts]
        rw [htail]
        unfold featLinesFull
        rw [hts, flatMap_pairs_eq (t0 :: ts0) (by simp)]
        rfl
    | cons f1 fs2 =>
      rw [List.flatMap_cons, ih (by simp), featsCore_cons2]
      simp [List.append_assoc]

lemma write_chunks_eq (r : Roadmap) (h : CleanRoadmap r) :
    write_chunks r = docCore r ++ [[]] := by
  obtain ⟨hn, hd, hms, hfs⟩ := h
  unfold write_chunks docCore msBlock featsBody
  rw [if_neg (show ¬ (r.name.isEmpty = true) by simp [hn.1]), hd,
    if_pos (show ("" : String).isEmpty = true from rfl),
    flatMap_featLines r.features hfs]
  cases hfs0 : r.features with
  | nil =>
    cases hmse : r.milestones.isEmpty <;> simp
  | cons f0 fs' =>
    rw [flatMap_featLinesFull_eq (f0 :: fs') (by simp)]
    cases hmse : r.milestones.isEmpty <;> simp [List.append_assoc]

lemma splitSections_no_header (ls : List Line)
    (h : ∀ l ∈ ls, isH2Header l = false) : splitSections ls = (ls, []) := by
  have h1 := splitSections_append ls [] h
  simpa [splitSections] using h1

lemma featsBody_no_h2 (fs : List Feature) :
    ∀ l ∈ featsBody fs, isH2Header l = false := by
  intro l hl
  unfold featsBody at hl
  split at hl
  · simp at hl
  · rcases List.mem_cons.1 hl with he | hl
    · rw [he]
      rfl
    · exact featsCore_no_h2 _ l hl

lemma featsBody_no_nl (fs : List Feature) (h : ∀ f ∈ fs, CleanFeature f) :
    ∀ l ∈ featsBody fs, '\n' ∉ l := by
  intro l hl
  unfold featsBody at hl
  split at hl
  · simp at hl
  · rcases List.mem_cons.1 hl with he | hl
    · rw [he]
      simp
    · exact featsCore_no_nl _ h l hl

lemma docCore_no_nl (r : Roadmap) (h : CleanRoadmap r) :
    ∀ l ∈ docCore r, '\n' ∉ l := by
  obtain ⟨hn, hd, hms, hfs⟩ := h
  intro l hl
  unfold docCore at hl
  rcases List.mem_cons.1 hl with he | hl
  · rw [he]
    intro hm
    rcases List.mem_append.1 hm with h1 | h1
    · exact absurd h1 (by decide)
    · exact hn.2.2.2 h1
  rcases List.mem_cons.1 hl with he | hl
  · rw [he]
    simp
  rcases List.mem_append.1 hl with hl | hl
  · unfold msBlock at hl
    split at hl
    · simp at hl
    · rcases List.mem_cons.1 hl with he | hl
      · rw [he]
        decide
      rcases List.mem_append.1 hl with hl | hl
      · obtain ⟨m, hm, rfl⟩ := List.mem_map.1 hl
        exact mkMilestoneLine_no_nl m (hms m hm)
      · rcases List.mem_cons.1 hl with he | hl
        · rw [he]
          simp
        · simp at hl
  · rcases List.mem_cons.1 hl with he | hl
    · rw [he]
      decide
    · exact featsBody_no_nl r.features hfs l hl

lemma docCore_getLast (r : Roadmap) (h : CleanRoadmap r) :
    ∃ y d, (docCore r).getLast? = some y ∧ y.getLast? = some d ∧
      isPySpace d = false := by
  obtain ⟨hn, hd, hms, hfs⟩ := h
  have hstep1 : (docCore r).getLast? =
      List.getLast? ("## Features".data :: featsBody r.features) := by
    unfold docCore
    rw [show (("# ".data ++ r.name.data) :: [] ::
      (msBlock r.milestones ++ "## Features".data :: featsBody r.features)) =
      ["# ".data ++ r.name.data, []] ++
        (msBlock r.milestones ++ "## Features".data :: featsBody r.features)
      from rfl,
      List.getLast?_append_of_ne_nil _ (by simp),
      List.getLast?_append_of_ne_nil _ (by simp)]
  cases hfs0 : r.features with
  | nil =>
    refine ⟨"## Features".data, 's', ?_, by decide, by decide⟩
    rw [hstep1, hfs0]
    rfl
  | cons f0 fs' =>
    have hfs2 : ∀ f ∈ (f0 :: fs'), CleanFeature f := by
      rw [← hfs0]
      exact hfs
    obtain ⟨y, d, hy, hyd, hdns⟩ := featsCore_getLast (f0 :: fs') (by simp) hfs2
    refine ⟨y, d, ?_, hyd, hdns⟩
    rw [hstep1, hfs0,
      show featsBody (f0 :: fs') = [] :: featsCore (f0 :: fs') from rfl,
      show ("## Features".data :: [] :: featsCore (f0 :: fs')) =
        ["## Features".data, []] ++ featsCore (f0 :: fs') from rfl,
      List.getLast?_append_of_ne_nil _ (featsCore_ne_nil _ (by simp)), hy]

/-- A concrete clean roadmap exercising milestones with and without due
dates, a feature with completed and open tasks, and a task-free
feature. -/
def c4r : Roadmap :=
  { name := "Project",
    description := "",
    milestones := [⟨"v1", some "2025-01-01"⟩, ⟨"v2", none⟩],
    features :=
      [{ title := "F1", description := "", milestone := none, labels := [],
         assignees := [],
         tasks := [⟨"T1", "", [], [], [], true⟩, ⟨"T2", "", [], [], [], false⟩] },
       { title := "F2", description := "", milestone := none, labels := [],
         assignees := [], tasks := [] }] }

end Gitscaffold
